import Mathlib

/-!
Verification of the redis-rust server against its specification.

The development shallowly embeds the Rust sources:
  * `src/protocol.rs`  — the RESP wire codec (`DataType`, `serialize`, `parse`);
  * `src/rdb.rs`       — the snapshot codec (`to_rdb`, `from_rdb`, CRC64, LZF);
  * `src/storage.rs`   — the key-value store (`set`, `get`, expiry);
  * `src/connection.rs`/`src/commands.rs` — command dispatch and REPLCONF.

Modelling conventions:
  * Byte buffers are `List Nat` whose elements are byte values (0..255);
    machine integers are `Nat`/`Int` with explicit `% 2 ^ w` where the Rust
    code can wrap or truncate.
  * Where Rust uses bit operations on values whose ranges make them coincide
    with plain arithmetic (for example `x >> 6` on a byte, or `a | b` with
    disjoint bit ranges), the embedding uses the arithmetic form and the
    surrounding comment records the correspondence.
  * Fallible Rust code returning `Result` becomes `Except RErr`; an
    out-of-bounds slice index (a Rust panic, not a `Result` error) is the
    distinguished outcome `RErr.panic`.
  * Rust `f64` values are represented by the byte string of their decimal
    rendering (`f64::to_string`), which is all the wire codec ever reads or
    writes; parsing a float literal is modelled as validating the literal
    and keeping its bytes.
-/

/-- Outcome of fallible embedded code: `err` is a Rust `Err(...)` return,
`panic` is a Rust panic (out-of-bounds slice index). -/
inductive RErr where
  | err : RErr
  | panic : RErr
deriving DecidableEq, Repr

/-- ASCII bytes of a string literal (all uses are ASCII, where UTF-8 bytes
and code points coincide). -/
def str (s : String) : List Nat := s.data.map Char.toNat

/-- The CRLF terminator `"\r\n"` used throughout the RESP codec. -/
def crlf : List Nat := [13, 10]

/-- Decimal digits of `n`, most significant first, as ASCII bytes;
accumulator-based, mirroring integer-to-string rendering (`usize::to_string`,
`u64::to_string`). The structural `fuel` argument only bounds the recursion
(a number has at most `n + 1` digits); callers pass `n + 1`, so the
`fuel = 0` branch is unreachable. -/
def natToDigitsAux : Nat → Nat → List Nat → List Nat
  | 0, _, acc => acc
  | fuel + 1, n, acc =>
    if n < 10 then (48 + n) :: acc
    else natToDigitsAux fuel (n / 10) ((48 + n % 10) :: acc)

def natToDigits (n : Nat) : List Nat := natToDigitsAux (n + 1) n []

/-- ASCII rendering of an `i64` value (`i64::to_string`). -/
def intToBytes (v : Int) : List Nat :=
  if v < 0 then 45 :: natToDigits v.natAbs else natToDigits v.toNat

/-- RESP message variants, after `DataType` in `src/protocol.rs`.
`double` holds the decimal rendering bytes of the `f64` value (see the
module comment); all other fields are as in the source. -/
inductive DataType where
  | double (value : List Nat)
  | bigNumber (sign : Nat) (value : List Nat)
  | integer (value : Int)
  | simpleError (value : List Nat)
  | bulkString (value : Option (List Nat))
  | rdb (value : List Nat)
  | bulkError (value : List Nat)
  | verbatimString (encoding : List Nat) (value : List Nat)
  | simpleString (value : List Nat)
  | map (entries : List (DataType × DataType))
  | set (elements : List DataType)
  | array (elements : List DataType)
  | push (elements : List DataType)
  | null
  | boolean (value : Bool)

mutual

/-- `DataType::serialize` from `src/protocol.rs`. -/
def DataType.serialize : DataType → List Nat
  | .double value => 44 :: (value ++ crlf)
  | .bigNumber sign value =>
      40 :: ((if sign = 45 then [sign] else []) ++ value ++ crlf)
  | .integer value => 58 :: (intToBytes value ++ crlf)
  | .simpleError value => 45 :: (value ++ crlf)
  | .bulkString value =>
      match value with
      | some value => 36 :: (natToDigits value.length ++ crlf ++ value ++ crlf)
      | none => 36 :: (str "-1" ++ crlf)
  | .rdb value => 36 :: (natToDigits value.length ++ crlf ++ value)
  | .bulkError value => 33 :: (natToDigits value.length ++ crlf ++ value ++ crlf)
  | .verbatimString encoding value =>
      61 :: (natToDigits (value.length + encoding.length + 1) ++ crlf ++
        encoding ++ 58 :: value ++ crlf)
  | .simpleString value => 43 :: (value ++ crlf)
  | .map entries =>
      37 :: (natToDigits entries.length ++ crlf ++ DataType.serializePairs entries)
  | .set elements =>
      126 :: (natToDigits elements.length ++ crlf ++ DataType.serializeList elements)
  | .array elements =>
      42 :: (natToDigits elements.length ++ crlf ++ DataType.serializeList elements)
  | .push elements =>
      62 :: (natToDigits elements.length ++ crlf ++ DataType.serializeList elements)
  | .null => str "_" ++ crlf
  | .boolean value => 35 :: (if value then 116 else 102) :: crlf

/-- Concatenated serializations of a list of elements (the element loops of
the aggregate serializers; the `array`/`push` cases above inline the shared
`serialize_array_like` helper). -/
def DataType.serializeList : List DataType → List Nat
  | [] => []
  | e :: rest => e.serialize ++ DataType.serializeList rest

/-- Concatenated serializations of map entries (each key then value). -/
def DataType.serializePairs : List (DataType × DataType) → List Nat
  | [] => []
  | (k, v) :: rest => k.serialize ++ v.serialize ++ DataType.serializePairs rest

end

/-! ### RESP parsing (`src/protocol.rs`) -/

/-- `read_and_assert_symbol`: check that `input[position] == symbol` and step
past it (error text omitted; only the success/failure shape is modelled). -/
def readAndAssertSymbol (input : List Nat) (symbol position : Nat) :
    Except RErr Nat :=
  match input[position]? with
  | none => .error .err
  | some actual => if actual = symbol then .ok (position + 1) else .error .err

/-- `maybe_slice_of`: bounds-checked slice, `None` when out of range. -/
def maybeSliceOf (vec : List Nat) (start stop : Nat) : Option (List Nat) :=
  if start > vec.length ∨ stop > vec.length ∨ start > stop then none
  else some ((vec.drop start).take (stop - start))

/-- Rust slice indexing `input[start..stop]`: panics (rather than returning
an error) when the range is out of bounds. -/
def rustSlice (input : List Nat) (start stop : Nat) : Except RErr (List Nat) :=
  if start ≤ stop ∧ stop ≤ input.length then
    .ok ((input.drop start).take (stop - start))
  else .error .panic

/-- Inner loop of `find_position_before_terminator`: advance `current` and the
terminator index `tc` while the input keeps matching the terminator; returns
the final `(current, tc)`. The structural `fuel` bounds the recursion: each
step needs `tc < term.length` and increments `tc`, so with `fuel =
term.length - tc` (callers pass `term.length` at `tc = 0`) the `fuel = 0`
branch coincides with the loop condition being false. -/
def scanMatch (input term : List Nat) : Nat → Nat → Nat → Nat × Nat
  | 0, current, tc => (current, tc)
  | fuel + 1, current, tc =>
    if current < input.length ∧ tc < term.length ∧
        input.getD current 0 = term.getD tc 0 then
      scanMatch input term fuel (current + 1) (tc + 1)
    else (current, tc)

/-- Outer loop of `find_position_before_terminator`. Note the source resumes
scanning at `current + 1` after a partial terminator match, skipping the
bytes the partial match consumed. The structural `fuel` bounds the
recursion: `current` grows by at least one per step and the loop stops once
`current ≥ input.length`, so with `fuel ≥ input.length + 1 - current` the
`fuel = 0` branch coincides with the loop condition being false. -/
def findPosAux (input term : List Nat) : Nat → Nat → Nat
  | 0, current => current
  | fuel + 1, current =>
    if current < input.length then
      let s := scanMatch input term term.length current 0
      if s.2 = term.length ∧ 0 < term.length then s.1 - term.length
      else findPosAux input term fuel (s.1 + 1)
    else current

/-- `find_position_before_terminator` from `src/protocol.rs`. -/
def findPositionBeforeTerminator (input term : List Nat) (position : Nat) :
    Nat :=
  findPosAux input term (input.length + 1) position

/-- Fold ASCII digits into a number (the accumulation inside Rust integer
`FromStr`). Returns `none` on a non-digit byte. -/
def digitsVal : List Nat → Option Nat
  | [] => some 0
  | d :: rest =>
      if 48 ≤ d ∧ d ≤ 57 then
        (digitsVal rest).map (fun v => (d - 48) * 10 ^ rest.length + v)
      else none

/-- `str::parse::<usize>()` (via `from_utf8_lossy`): optional leading `+`,
then at least one digit, value below `2^64` (64-bit `usize`); any other byte
(including the bytes of a lossily-decoded non-ASCII character) fails. -/
def parseUsize (bytes : List Nat) : Option Nat :=
  let digits := if bytes.head? = some 43 then bytes.tail else bytes
  if digits = [] then none
  else match digitsVal digits with
    | some v => if v < 2 ^ 64 then some v else none
    | none => none

/-- `str::parse::<i64>()`: optional sign, at least one digit, value within
the `i64` range. -/
def parseI64 (bytes : List Nat) : Option Int :=
  if bytes.head? = some 43 then
    match digitsVal bytes.tail with
    | some v => if bytes.tail ≠ [] ∧ v < 2 ^ 63 then some (Int.ofNat v) else none
    | none => none
  else if bytes.head? = some 45 then
    match digitsVal bytes.tail with
    | some v => if bytes.tail ≠ [] ∧ v ≤ 2 ^ 63 then some (-(Int.ofNat v)) else none
    | none => none
  else
    match digitsVal bytes with
    | some v => if bytes ≠ [] ∧ v < 2 ^ 63 then some (Int.ofNat v) else none
    | none => none

/-- One-or-more ASCII digits. -/
def allDigits (l : List Nat) : Bool := l.all (fun d => 48 ≤ d ∧ d ≤ 57)

/-- Case-insensitive match of ASCII bytes against a lowercase word. -/
def matchWordCI (l : List Nat) (w : List Nat) : Bool :=
  l.length = w.length ∧
    (l.zip w).all (fun p => p.1 = p.2 ∨ (p.1 = p.2 - 32 ∧ 97 ≤ p.2 ∧ p.2 ≤ 122))

/-- The decimal part of the `f64::from_str` grammar: digits with at most one
point (at least one digit overall) and an optional exponent. -/
def decimalLit (l : List Nat) : Bool :=
  let mantissaExp := l.splitOnP (fun b => b = 101 ∨ b = 69)
  match mantissaExp with
  | [m] =>
      let parts := m.splitOnP (fun b => b = 46)
      match parts with
      | [w] => !w.isEmpty && allDigits w
      | [w, f] => (!w.isEmpty || !f.isEmpty) && allDigits w && allDigits f
      | _ => false
  | [m, e] =>
      let eDigits := match e with
        | 43 :: rest => rest
        | 45 :: rest => rest
        | _ => e
      let parts := m.splitOnP (fun b => b = 46)
      (match parts with
      | [w] => !w.isEmpty && allDigits w
      | [w, f] => (!w.isEmpty || !f.isEmpty) && allDigits w && allDigits f
      | _ => false) && !eDigits.isEmpty && allDigits eDigits
  | _ => false

/-- Validity of an `f64::from_str` literal: optional sign, then `inf`,
`infinity`, `nan` (case-insensitively) or a decimal literal. -/
def isF64Lit (bytes : List Nat) : Bool :=
  let body := match bytes with
    | 43 :: rest => rest
    | 45 :: rest => rest
    | _ => bytes
  matchWordCI body (str "inf") ∨ matchWordCI body (str "infinity") ∨
    matchWordCI body (str "nan") ∨ decimalLit body

/-- `parse_double`: the `f64` value is kept as its literal bytes (see the
module comment); an invalid literal is a parse error, as in the source. -/
def parseDouble (input : List Nat) (position : Nat) :
    Except RErr (DataType × Nat) := do
  let _ ← readAndAssertSymbol input 44 position
  let valueStart := position + 1
  let valueEnd := findPositionBeforeTerminator input crlf valueStart
  let _ ← readAndAssertSymbol input 13 valueEnd
  let _ ← readAndAssertSymbol input 10 (valueEnd + 1)
  let bytes ← rustSlice input valueStart valueEnd
  if isF64Lit bytes then .ok (.double bytes, valueEnd + 2)
  else .error .err

/-- `parse_big_number`. -/
def parseBigNumber (input : List Nat) (position : Nat) :
    Except RErr (DataType × Nat) := do
  let _ ← readAndAssertSymbol input 40 position
  match input[position + 1]? with
  | none => .error .err
  | some maybeSign =>
    let valueStart := if maybeSign = 43 ∨ maybeSign = 45
      then position + 2 else position + 1
    let sign : Option Nat := if maybeSign = 43 ∨ maybeSign = 45
      then some maybeSign else none
    let valueEnd := findPositionBeforeTerminator input crlf valueStart
    let _ ← readAndAssertSymbol input 13 valueEnd
    let _ ← readAndAssertSymbol input 10 (valueEnd + 1)
    let bytes ← rustSlice input valueStart valueEnd
    .ok (.bigNumber (sign.getD 43) bytes, valueEnd + 2)

/-- `parse_integer`. -/
def parseInteger (input : List Nat) (position : Nat) :
    Except RErr (DataType × Nat) := do
  let _ ← readAndAssertSymbol input 58 position
  let valueStart := position + 1
  let valueEnd := findPositionBeforeTerminator input crlf valueStart
  let _ ← readAndAssertSymbol input 13 valueEnd
  let _ ← readAndAssertSymbol input 10 (valueEnd + 1)
  let bytes ← rustSlice input valueStart valueEnd
  match parseI64 bytes with
  | some v => .ok (.integer v, valueEnd + 2)
  | none => .error .err

/-- `parse_simple_error`. -/
def parseSimpleError (input : List Nat) (position : Nat) :
    Except RErr (DataType × Nat) := do
  let _ ← readAndAssertSymbol input 45 position
  let valueStart := position + 1
  let valueEnd := findPositionBeforeTerminator input crlf valueStart
  let _ ← readAndAssertSymbol input 13 valueEnd
  let _ ← readAndAssertSymbol input 10 (valueEnd + 1)
  let bytes ← rustSlice input valueStart valueEnd
  .ok (.simpleError bytes, valueEnd + 2)

/-- `parse_bulk_string_or_rdb`. The length slice and its numeric parse happen
before the CRLF asserts, and both content slices use panicking indexing,
exactly as in the source. -/
def parseBulkStringOrRdb (input : List Nat) (position : Nat) :
    Except RErr (DataType × Nat) := do
  let _ ← readAndAssertSymbol input 36 position
  let lengthStart := position + 1
  if input[lengthStart]? ≠ some 45 then
    let lengthEnd := findPositionBeforeTerminator input crlf lengthStart
    let lengthBytes ← rustSlice input lengthStart lengthEnd
    match parseUsize lengthBytes with
    | none => .error .err
    | some stringLength =>
      let _ ← readAndAssertSymbol input 13 lengthEnd
      let _ ← readAndAssertSymbol input 10 (lengthEnd + 1)
      let valueStart := lengthEnd + 2
      let valueEnd := lengthEnd + 2 + stringLength
      if maybeSliceOf input valueEnd (valueEnd + 2) = some crlf then
        let value ← rustSlice input valueStart valueEnd
        .ok (.bulkString (some value), valueEnd + 2)
      else
        let value ← rustSlice input valueStart valueEnd
        .ok (.rdb value, valueEnd)
  else
    .ok (.bulkString none, position + (str "$-1" ++ crlf).length)

/-- `parse_bulk_error`. -/
def parseBulkError (input : List Nat) (position : Nat) :
    Except RErr (DataType × Nat) := do
  let _ ← readAndAssertSymbol input 33 position
  let lengthStart := position + 1
  let lengthEnd := findPositionBeforeTerminator input crlf lengthStart
  let lengthBytes ← rustSlice input lengthStart lengthEnd
  match parseUsize lengthBytes with
  | none => .error .err
  | some contentLength =>
    let _ ← readAndAssertSymbol input 13 lengthEnd
    let _ ← readAndAssertSymbol input 10 (lengthEnd + 1)
    let valueStart := lengthEnd + 2
    let valueEnd := lengthEnd + 2 + contentLength
    let _ ← readAndAssertSymbol input 13 valueEnd
    let _ ← readAndAssertSymbol input 10 (valueEnd + 1)
    let value ← rustSlice input valueStart valueEnd
    .ok (.bulkError value, valueEnd + 2)

/-- `parse_verbatim_string`. -/
def parseVerbatimString (input : List Nat) (position : Nat) :
    Except RErr (DataType × Nat) := do
  let _ ← readAndAssertSymbol input 61 position
  let lengthStart := position + 1
  let lengthEnd := findPositionBeforeTerminator input crlf lengthStart
  let lengthBytes ← rustSlice input lengthStart lengthEnd
  match parseUsize lengthBytes with
  | none => .error .err
  | some contentLength =>
    let _ ← readAndAssertSymbol input 13 lengthEnd
    let _ ← readAndAssertSymbol input 10 (lengthEnd + 1)
    let valueStart := lengthEnd + 2
    let valueEnd := lengthEnd + 2 + contentLength
    let _ ← readAndAssertSymbol input 13 valueEnd
    let _ ← readAndAssertSymbol input 10 (valueEnd + 1)
    let encodingAndContent ← rustSlice input valueStart valueEnd
    match encodingAndContent.findIdx? (fun ch => ch = 58) with
    | none => .error .err
    | some indexBeforeContent =>
      let encoding ← rustSlice input valueStart (valueStart + indexBeforeContent)
      let value ← rustSlice input (valueStart + indexBeforeContent + 1) valueEnd
      .ok (.verbatimString encoding value, valueEnd + 2)

/-- `parse_simple_string`. -/
def parseSimpleString (input : List Nat) (position : Nat) :
    Except RErr (DataType × Nat) := do
  let _ ← readAndAssertSymbol input 43 position
  let valueStart := position + 1
  let valueEnd := findPositionBeforeTerminator input crlf valueStart
  let _ ← readAndAssertSymbol input 13 valueEnd
  let _ ← readAndAssertSymbol input 10 (valueEnd + 1)
  let bytes ← rustSlice input valueStart valueEnd
  .ok (.simpleString bytes, valueEnd + 2)

/-- `parse_null`. -/
def parseNull (input : List Nat) (position : Nat) :
    Except RErr (DataType × Nat) := do
  let _ ← readAndAssertSymbol input 95 position
  let _ ← readAndAssertSymbol input 13 (position + 1)
  let _ ← readAndAssertSymbol input 10 (position + 2)
  .ok (.null, position + 3)

/-- `parse_boolean` (any byte other than `t` reads as `false`). -/
def parseBoolean (input : List Nat) (position : Nat) :
    Except RErr (DataType × Nat) := do
  let _ ← readAndAssertSymbol input 35 position
  match input[position + 1]? with
  | none => .error .err
  | some valueInput =>
    let value := valueInput = 116
    let _ ← readAndAssertSymbol input 13 (position + 2)
    let _ ← readAndAssertSymbol input 10 (position + 3)
    .ok (.boolean value, position + 4)

/-- The element loop shared by the aggregate parsers (`while read < length`):
run the element parser `count` times, threading the position. -/
def parseItems (p : List Nat → Nat → Except RErr (DataType × Nat)) :
    Nat → List Nat → Nat → Except RErr (List DataType × Nat)
  | 0, _, position => .ok ([], position)
  | count + 1, input, position => do
      let (element, next) ← p input position
      let (rest, final) ← parseItems p count input next
      .ok (element :: rest, final)

/-- The entry loop of `parse_map`: a key parse then a value parse per entry. -/
def parsePairs (p : List Nat → Nat → Except RErr (DataType × Nat)) :
    Nat → List Nat → Nat → Except RErr (List (DataType × DataType) × Nat)
  | 0, _, position => .ok ([], position)
  | count + 1, input, position => do
      let (key, afterKey) ← p input position
      let (value, next) ← p input afterKey
      let (rest, final) ← parsePairs p count input next
      .ok ((key, value) :: rest, final)

/-- Header of the aggregate parsers: length line after the prefix symbol,
parsed as `i64` (a negative count runs the loop zero times). -/
def parseAggregateHeader (input : List Nat) (position : Nat)
    (prefixByte : Nat) : Except RErr (Int × Nat) := do
  let _ ← readAndAssertSymbol input prefixByte position
  let lengthStart := position + 1
  let lengthEnd := findPositionBeforeTerminator input crlf lengthStart
  let lengthBytes ← rustSlice input lengthStart lengthEnd
  match parseI64 lengthBytes with
  | none => .error .err
  | some count =>
    let _ ← readAndAssertSymbol input 13 lengthEnd
    let _ ← readAndAssertSymbol input 10 (lengthEnd + 1)
    .ok (count, lengthEnd + 2)

/-- `DataType::parse` (with the leaf parsers above): dispatch on the prefix
byte. `fuel` bounds the nesting depth of aggregates; the wrapper
`DataType.parse` passes `input.length + 1`, which exceeds any possible
nesting depth since every aggregate level consumes at least one byte of
header before recursing, so the `fuel = 0` case is unreachable from the
wrapper. -/
def parseD : Nat → List Nat → Nat → Except RErr (DataType × Nat)
  | 0, _, _ => .error .err
  | fuel + 1, input, position =>
    match input[position]? with
    | none => .error .err
    | some c =>
      if c = 44 then parseDouble input position
      else if c = 40 then parseBigNumber input position
      else if c = 58 then parseInteger input position
      else if c = 45 then parseSimpleError input position
      else if c = 36 then parseBulkStringOrRdb input position
      else if c = 33 then parseBulkError input position
      else if c = 61 then parseVerbatimString input position
      else if c = 43 then parseSimpleString input position
      else if c = 37 then do
        let (count, p1) ← parseAggregateHeader input position 37
        let (entries, p2) ← parsePairs (parseD fuel) count.toNat input p1
        .ok (.map entries, p2)
      else if c = 126 then do
        let (count, p1) ← parseAggregateHeader input position 126
        let (elements, p2) ← parseItems (parseD fuel) count.toNat input p1
        .ok (.set elements, p2)
      else if c = 42 then do
        let (count, p1) ← parseAggregateHeader input position 42
        let (elements, p2) ← parseItems (parseD fuel) count.toNat input p1
        .ok (.array elements, p2)
      else if c = 62 then do
        let (count, p1) ← parseAggregateHeader input position 62
        let (elements, p2) ← parseItems (parseD fuel) count.toNat input p1
        .ok (.push elements, p2)
      else if c = 95 then parseNull input position
      else if c = 35 then parseBoolean input position
      else .error .err

/-- `DataType::parse` from `src/protocol.rs`. -/
def DataType.parse (input : List Nat) (position : Nat) :
    Except RErr (DataType × Nat) :=
  parseD (input.length + 1) input position

/-! ### CRC64 (`src/rdb.rs`) -/

/-- The Jones polynomial from `crc64_single_byte`. -/
def CRC64_POLY : Nat := 0xad93d23594c935a9

/-- Bit reflection `reflect64`: 64 iterations of
`data >>= 1; ret = (ret << 1) | (data & 1)` after `ret = data & 1`.
`(ret << 1) | bit` is `ret * 2 + bit` since the freshly shifted low bit of
`ret` is zero. -/
def reflect64Step : Nat → Nat × Nat → Nat × Nat
  | 0, s => s
  | i + 1, (data, ret) => reflect64Step i (data / 2, ret * 2 + (data / 2) % 2)

def reflect64 (data : Nat) : Nat := (reflect64Step 63 (data, data % 2)).2

/-- The 8 bit iterations of `crc64_single_byte` (bit mask `1 << i`):
`crc <<= 1` is `crc * 2 % 2^64` on a `u64`, and the conditional XOR with the
polynomial fires when the CRC high bit differs from the data bit. -/
def crc64BitStep (byte : Nat) : Nat → Nat → Nat
  | crc, 0 => crc
  | crc, i + 1 =>
    let crcHigh := (crc / 2 ^ 63) % 2
    let dataBit := (byte / 2 ^ (8 - (i + 1))) % 2
    let crc1 := crc * 2 % 2 ^ 64
    let crc2 := if (crcHigh ^^^ dataBit) ≠ 0 then crc1 ^^^ CRC64_POLY else crc1
    crc64BitStep byte crc2 i

/-- `crc64_single_byte`: bit-by-bit CRC of one byte with initial value 0,
then output reflection. -/
def crc64SingleByte (byte : Nat) : Nat :=
  reflect64 (crc64BitStep byte 0 8)

/-- `build_crc64_table` / `CRC64_TABLE`: the 256-entry lookup table. -/
def crc64Table : List Nat := (List.range 256).map crc64SingleByte

/-- `crc64` from `src/rdb.rs`: table-driven left-to-right fold. -/
def crc64 (data : List Nat) : Nat :=
  data.foldl (fun crc byte =>
    (crc64Table.getD ((crc ^^^ byte) % 256) 0) ^^^ (crc / 2 ^ 8)) 0

/-! ### Key-value store (`src/storage.rs`) -/

/-- `StoredValue` from `src/storage.rs`. Timestamps are milliseconds since
the UNIX epoch (`u128` in the source; `expires_in_ms` is `u64`). -/
structure StoredValue where
  expires_in_ms : Option Nat
  last_modified_timestamp : Nat
  value : List Nat
deriving DecidableEq, Repr

/-- `StoredValue::from`: capture the current wall time `now` (the
`SystemTime::now()` read, passed explicitly in the embedding). -/
def StoredValue.fromNow (now : Nat) (value : List Nat)
    (expires_in_ms : Option Nat) : StoredValue :=
  ⟨expires_in_ms, now, value⟩

/-- `StoredValue::with_absolute_expiry`: convert an absolute deadline to a
remaining duration at load time (clamped at zero when already past). -/
def StoredValue.with_absolute_expiry (now : Nat) (value : List Nat)
    (expires_at_ms : Option Nat) : StoredValue :=
  ⟨expires_at_ms.map (fun abs => if abs > now then abs - now else 0), now, value⟩

/-- `StoredValue::expires_at_ms`: `self.last_modified_timestamp as u64 + dur`
— the `u128 → u64` cast truncates and the `u64` addition wraps (release
semantics), hence the two `% 2 ^ 64`. -/
def StoredValue.expires_at_ms (sv : StoredValue) : Option Nat :=
  sv.expires_in_ms.map
    (fun dur => (sv.last_modified_timestamp % 2 ^ 64 + dur) % 2 ^ 64)

/-- `StoredValue::is_expired` at wall time `now` (the `u128` sum
`last_modified + expires_in` cannot overflow for representable epoch
times, so plain `Nat` addition is exact here). -/
def StoredValue.is_expired (now : Nat) (sv : StoredValue) : Bool :=
  match sv.expires_in_ms with
  | some e => now ≥ sv.last_modified_timestamp + e
  | none => false

/-- Association-list stand-in for the `HashMap<String, StoredValue>`:
`insert` replaces the value of an existing key and otherwise appends
(iteration order is arbitrary in the source; the embedding fixes one). -/
def mapInsert (k : List Nat) (v : StoredValue) :
    List (List Nat × StoredValue) → List (List Nat × StoredValue)
  | [] => [(k, v)]
  | (k1, v1) :: rest =>
      if k1 = k then (k, v) :: rest else (k1, v1) :: mapInsert k v rest

/-- `HashMap::get` on the association list. -/
def mapLookup (k : List Nat) :
    List (List Nat × StoredValue) → Option StoredValue
  | [] => none
  | (k1, v1) :: rest => if k1 = k then some v1 else mapLookup k rest

/-- `Storage` from `src/storage.rs`. -/
structure Storage where
  data : List (List Nat × StoredValue)
deriving DecidableEq, Repr

/-- `Storage::set` (the returned previous value is not modelled; only the
updated state is). -/
def Storage.set (s : Storage) (now : Nat) (key : List Nat) (value : List Nat)
    (expires_in_ms : Option Nat) : Storage :=
  ⟨mapInsert key (StoredValue.fromNow now value expires_in_ms) s.data⟩

/-- `Storage::get` at wall time `now`: an entry whose deadline has passed
reads as absent (the expiry test is inlined in the source exactly as
here). -/
def Storage.get (s : Storage) (now : Nat) (key : List Nat) :
    Option (List Nat) :=
  match mapLookup key s.data with
  | none => none
  | some sv =>
      let expired : Bool := match sv.expires_in_ms with
        | some e => decide (now ≥ sv.last_modified_timestamp + e)
        | none => false
      if expired then none else some sv.value

/-- `Storage::to_pairs`: the key-to-value-bytes mapping, as a lookup
function (the source returns a `HashMap`; equality of such maps is equality
of lookups). -/
def Storage.to_pairs (s : Storage) (key : List Nat) : Option (List Nat) :=
  (mapLookup key s.data).map (fun sv => sv.value)

/-! ### UTF-8 validation (Rust `String::from_utf8`) -/

/-- A UTF-8 continuation byte. -/
def contByte (c : Nat) : Bool := 128 ≤ c ∧ c ≤ 191

/-- Validity of a byte sequence under Rust `String::from_utf8` (standard
UTF-8 table: well-formed lead bytes, required continuation bytes, no
overlongs, no surrogates, max `U+10FFFF`). -/
def utf8Valid : List Nat → Bool
  | [] => true
  | b :: rest =>
    if b < 128 then utf8Valid rest
    else match rest with
      | [] => false
      | c1 :: rest1 =>
        if 194 ≤ b ∧ b ≤ 223 then contByte c1 && utf8Valid rest1
        else match rest1 with
          | [] => false
          | c2 :: rest2 =>
            if b = 224 then
              (decide (160 ≤ c1 ∧ c1 ≤ 191)) && contByte c2 && utf8Valid rest2
            else if (225 ≤ b ∧ b ≤ 236) ∨ b = 238 ∨ b = 239 then
              contByte c1 && contByte c2 && utf8Valid rest2
            else if b = 237 then
              (decide (128 ≤ c1 ∧ c1 ≤ 159)) && contByte c2 && utf8Valid rest2
            else match rest2 with
              | [] => false
              | c3 :: rest3 =>
                if b = 240 then
                  (decide (144 ≤ c1 ∧ c1 ≤ 191)) && contByte c2 && contByte c3 &&
                    utf8Valid rest3
                else if 241 ≤ b ∧ b ≤ 243 then
                  contByte c1 && contByte c2 && contByte c3 && utf8Valid rest3
                else if b = 244 then
                  (decide (128 ≤ c1 ∧ c1 ≤ 143)) && contByte c2 && contByte c3 &&
                    utf8Valid rest3
                else false

/-! ### `as_string` / `as_array` (`src/protocol.rs`) and command dispatch
(`src/connection.rs`, `src/commands.rs`) -/

/-- The trailing `String::from_utf8(result)` of `as_string`. -/
def finishString (bytes : List Nat) : Except RErr (List Nat) :=
  if utf8Valid bytes then .ok bytes else .error .err

mutual

/-- `DataType::as_string`: render a message as the byte content of a Rust
`String` (the final `String::from_utf8` is the `utf8Valid` check). -/
def DataType.asString : DataType → Except RErr (List Nat)
  | .double value => finishString value
  | .bigNumber sign value =>
      finishString ((if sign = 45 then [sign] else []) ++ value)
  | .integer value => finishString (intToBytes value)
  | .simpleError value => finishString value
  | .bulkString value =>
      match value with
      | some value => finishString value
      | none => finishString []
  | .rdb value => finishString value
  | .bulkError value => finishString value
  | .verbatimString _ value => finishString value
  | .simpleString value => finishString value
  | .map entries => do
      let bytes ← DataType.asStringPairs entries
      finishString bytes
  | .set elements => do
      let bytes ← DataType.asStringElems elements
      finishString bytes
  | .array elements => do
      let bytes ← DataType.asStringElems elements
      finishString bytes
  | .push elements => do
      let bytes ← DataType.asStringElems elements
      finishString bytes
  | .null => finishString []
  | .boolean value => finishString [if value then 116 else 102]

/-- The element loop of the `Set`/`Array`/`Push` cases of `as_string`:
each element rendered then a `,`. -/
def DataType.asStringElems : List DataType → Except RErr (List Nat)
  | [] => .ok []
  | e :: rest => do
      let s ← e.asString
      let others ← DataType.asStringElems rest
      .ok (s ++ [44] ++ others)

/-- The entry loop of the `Map` case of `as_string`: key `:` value `,`. -/
def DataType.asStringPairs : List (DataType × DataType) → Except RErr (List Nat)
  | [] => .ok []
  | (k, v) :: rest => do
      let ks ← k.asString
      let vs ← v.asString
      let others ← DataType.asStringPairs rest
      .ok (ks ++ [58] ++ vs ++ [44] ++ others)

end

/-- The element loop of `as_array`. -/
def DataType.asArrayLoop : List DataType → Except RErr (List (List Nat))
  | [] => .ok []
  | e :: rest => do
      let s ← e.asString
      let others ← DataType.asArrayLoop rest
      .ok (s :: others)

/-- `DataType::as_array`: element renderings for an `Array`, else the
message itself as a one-element list. -/
def DataType.asArray : DataType → Except RErr (List (List Nat))
  | .array elements => DataType.asArrayLoop elements
  | other => do
      let s ← other.asString
      .ok [s]

/-- `parse_command_name` from `src/commands.rs`: first element of the
message rendered as a string, or the empty string. -/
def parseCommandName (message : DataType) : Except RErr (List Nat) := do
  let parts ← message.asArray
  .ok (parts.headD [])

/-- The command objects `handle_connection` can construct. -/
inductive CommandKind where
  | echo
  | ping
  | set
  | get
  | command
  | info
  | replconf
  | psync
deriving DecidableEq, Repr

/-- The command-name dispatch chain of `handle_connection`
(`src/connection.rs`): literal, case-sensitive comparisons of the parsed
command name; no matching branch builds no command. -/
def dispatchCommand (message : DataType) : Except RErr (Option CommandKind) := do
  let commandName ← parseCommandName message
  if commandName = str "ECHO" then .ok (some .echo)
  else if commandName = str "PING" then .ok (some .ping)
  else if commandName = str "SET" then .ok (some .set)
  else if commandName = str "GET" then .ok (some .get)
  else if commandName = str "COMMAND" then .ok (some .command)
  else if commandName = str "INFO" then .ok (some .info)
  else if commandName = str "REPLCONF" then .ok (some .replconf)
  else if commandName = str "PSYNC" then .ok (some .psync)
  else .ok none

/-- `str::to_lowercase` restricted to ASCII bytes (the embedding's theorems
about it carry an all-ASCII hypothesis, where Unicode and ASCII lowercasing
agree). -/
def asciiLower (l : List Nat) : List Nat :=
  l.map (fun b => if 65 ≤ b ∧ b ≤ 90 then b + 32 else b)

/-- `ReplConf::execute` from `src/commands.rs`: subcommand `getack`
(case-insensitively) gets the `REPLCONF ACK 0` array, anything else the
bulk string `OK`; a missing subcommand is an error. -/
def replConfExecute (message : DataType) : Except RErr (List DataType) := do
  let instructions ← message.asArray
  match instructions[1]? with
  | none => .error .err
  | some subCommand =>
      if asciiLower subCommand = str "getack" then
        .ok [.array [.bulkString (some (str "REPLCONF")),
          .bulkString (some (str "ACK")), .bulkString (some (str "0"))]]
      else
        .ok [.bulkString (some (str "OK"))]

/-- The `should_always_reply` flags of the eight command implementations
(`src/commands.rs`): `true` exactly for `ReplConf`. -/
def shouldAlwaysReply : CommandKind → Bool
  | .replconf => true
  | _ => false

/-! ### Snapshot codec (`src/rdb.rs`) -/

/-- `Read::read_exact(n)` on a byte stream: the first `n` bytes and the
rest, or an error when the stream is shorter. -/
def readExact (n : Nat) (s : List Nat) : Except RErr (List Nat × List Nat) :=
  if n ≤ s.length then .ok (s.take n, s.drop n) else .error .err

/-- Little-endian value of a byte list (`u64::from_le_bytes` /
`u32::from_le_bytes` on the lists the callers pass). -/
def fromLeBytes (l : List Nat) : Nat := l.foldr (fun b acc => acc * 256 + b) 0

/-- `u64::to_le_bytes` (the argument is always below `2 ^ 64`). -/
def toLe8 (n : Nat) : List Nat :=
  [n % 256, n / 2 ^ 8 % 256, n / 2 ^ 16 % 256, n / 2 ^ 24 % 256,
   n / 2 ^ 32 % 256, n / 2 ^ 40 % 256, n / 2 ^ 48 % 256, n / 2 ^ 56 % 256]

/-- `LengthOrSpecial` from `src/rdb.rs`. -/
inductive LengthOrSpecial where
  | length (len : Nat)
  | special (encoding : Nat)
deriving DecidableEq, Repr

/-- `decode_length_or_special`: `first >> 6` is `first / 64` and
`first & 0x3F` is `first % 64` on a byte; the 14-bit case
`(first & 0x3F) << 8 | second` is `(first % 64) * 256 + second` because the
operands occupy disjoint bit ranges. The final branch is `unreachable!()`
in the source (a `u8 >> 6` is at most 3). -/
def decodeLengthOrSpecial (s : List Nat) :
    Except RErr (LengthOrSpecial × List Nat) := do
  let (firstBuf, r1) ← readExact 1 s
  let first := firstBuf.headD 0
  if first / 64 = 0 then .ok (.length (first % 64), r1)
  else if first / 64 = 1 then do
    let (secondBuf, r2) ← readExact 1 r1
    .ok (.length ((first % 64) * 256 + secondBuf.headD 0), r2)
  else if first / 64 = 2 then do
    let (buf, r2) ← readExact 4 r1
    .ok (.length (fromLeBytes buf.reverse), r2)
  else if first / 64 = 3 then .ok (.special (first % 64), r1)
  else .error .err

/-- `decode_length`: a plain length (special encodings are errors). -/
def decodeLength (s : List Nat) : Except RErr (Nat × List Nat) := do
  match ← decodeLengthOrSpecial s with
  | (.length len, rest) => .ok (len, rest)
  | (.special _, _) => .error .err

/-- `encode_length`: in the 14-bit case `0x40 | (len >> 8) as u8` is
`64 + len / 256` because `len / 256 < 64`; in the 32-bit case
`(len as u32).to_be_bytes` truncates to `len % 2 ^ 32`. -/
def encodeLength (len : Nat) : List Nat :=
  if len < 2 ^ 6 then [len]
  else if len < 2 ^ 14 then [64 + len / 256, len % 256]
  else
    128 :: [len % 2 ^ 32 / 2 ^ 24, len % 2 ^ 32 / 2 ^ 16 % 256,
      len % 2 ^ 32 / 2 ^ 8 % 256, len % 2 ^ 32 % 256]

/-- Copy loop of an LZF back-reference: `len` times,
`output.push(output[start + j])` (reading the output being extended; the
index is always in bounds because the offset is at least 1, so the `getD`
default is never produced). -/
def lzfCopy (start j : Nat) (out : List Nat) : Nat → List Nat
  | 0 => out
  | rem + 1 => lzfCopy start (j + 1) (out ++ [out.getD (start + j) 0]) rem

/-- Main loop of `lzf_decompress`. `ctrl >> 5` is `ctrl / 32`,
`ctrl & 0x1f` is `ctrl % 32`, and `((ctrl & 0x1f) << 8) | next` is
`(ctrl % 32) * 256 + next` (disjoint bit ranges). The structural `fuel`
bounds the recursion (each iteration consumes at least the control byte);
callers pass `input.length + 1`, so the fuel-exhaustion branch is
unreachable. -/
def lzfLoop : Nat → List Nat → List Nat → Except RErr (List Nat)
  | _, [], output => .ok output
  | 0, _ :: _, _ => .error .err
  | fuel + 1, ctrl :: rest, output =>
    if ctrl < 32 then
      let runLen := ctrl + 1
      if runLen ≤ rest.length then
        lzfLoop fuel (rest.drop runLen) (output ++ rest.take runLen)
      else .error .err
    else
      let len0 := ctrl / 32 + 2
      let lenAndRest : Except RErr (Nat × List Nat) :=
        if len0 = 9 then
          match rest with
          | ext :: rest1 => .ok (len0 + ext, rest1)
          | [] => .error .err
        else .ok (len0, rest)
      match lenAndRest with
      | .error e => .error e
      | .ok (len, rest1) =>
        match rest1 with
        | [] => .error .err
        | offByte :: rest2 =>
          let offset := (ctrl % 32) * 256 + offByte + 1
          if offset ≤ output.length then
            lzfLoop fuel rest2 (lzfCopy (output.length - offset) 0 output len)
          else .error .err

/-- `lzf_decompress`: run the loop, then check the expected length. -/
def lzfDecompress (input : List Nat) (expectedLen : Nat) :
    Except RErr (List Nat) := do
  let out ← lzfLoop (input.length + 1) input []
  if out.length = expectedLen then .ok out else .error .err

/-- Signed value of `n` low bits interpreted two's complement
(`i8`/`i16`/`i32` `from_le_bytes` in `read_string`). -/
def signedOfBits (bits val : Nat) : Int :=
  if val < 2 ^ (bits - 1) then (val : Int) else (val : Int) - 2 ^ bits

/-- `read_string`: raw, int8/16/32 (rendered as ASCII decimal) and LZF
encodings. -/
def readString (s : List Nat) : Except RErr (List Nat × List Nat) := do
  match ← decodeLengthOrSpecial s with
  | (.length len, r1) => readExact len r1
  | (.special encoding, r1) =>
    if encoding = 0 then do
      let (buf, r2) ← readExact 1 r1
      .ok (intToBytes (signedOfBits 8 (fromLeBytes buf)), r2)
    else if encoding = 1 then do
      let (buf, r2) ← readExact 2 r1
      .ok (intToBytes (signedOfBits 16 (fromLeBytes buf)), r2)
    else if encoding = 2 then do
      let (buf, r2) ← readExact 4 r1
      .ok (intToBytes (signedOfBits 32 (fromLeBytes buf)), r2)
    else if encoding = 3 then do
      let (compressedLen, r2) ← decodeLength r1
      let (uncompressedLen, r3) ← decodeLength r2
      let (compressed, r4) ← readExact compressedLen r3
      let out ← lzfDecompress compressed uncompressedLen
      .ok (out, r4)
    else .error .err

/-- `write_string`: length-prefixed raw string. -/
def writeString (data : List Nat) : List Nat := encodeLength data.length ++ data

/-- `count` strings read and discarded (the loops of `skip_value`). -/
def skipStrings : Nat → List Nat → Except RErr (List Nat)
  | 0, s => .ok s
  | count + 1, s => do
      let (_, rest) ← readString s
      skipStrings count rest

/-- The member/score loop of the `ZSET` case of `skip_value`. -/
def skipZsetEntries : Nat → List Nat → Except RErr (List Nat)
  | 0, s => .ok s
  | count + 1, s => do
      let (_, r1) ← readString s
      let (scoreLenBuf, r2) ← readExact 1 r1
      let scoreLen := scoreLenBuf.headD 0
      if scoreLen < 0xFD then do
        let (_, r3) ← readExact scoreLen r2
        skipZsetEntries count r3
      else skipZsetEntries count r2

/-- The field/value loop of the `HASH` case of `skip_value`. -/
def skipHashEntries : Nat → List Nat → Except RErr (List Nat)
  | 0, s => .ok s
  | count + 1, s => do
      let (_, r1) ← readString s
      let (_, r2) ← readString r1
      skipHashEntries count r2

/-- `skip_value`: skip a value of the given type byte (string 0, list 1,
set 2, zset 3, hash 4, compact encodings 9-13 as one blob, quicklist 14 as
counted blobs); any other type byte is an error. -/
def skipValue (valueType : Nat) (s : List Nat) : Except RErr (List Nat) := do
  if valueType = 0 then do
    let (_, rest) ← readString s
    .ok rest
  else if valueType = 1 ∨ valueType = 2 then do
    let (count, r1) ← decodeLength s
    skipStrings count r1
  else if valueType = 3 then do
    let (count, r1) ← decodeLength s
    skipZsetEntries count r1
  else if valueType = 4 then do
    let (count, r1) ← decodeLength s
    skipHashEntries count r1
  else if 9 ≤ valueType ∧ valueType ≤ 14 ∧ valueType ≠ 14 then do
    let (_, rest) ← readString s
    .ok rest
  else if valueType = 14 then do
    let (count, r1) ← decodeLength s
    skipStrings count r1
  else .error .err

/-- `str::parse::<u32>()` (the RDB version field). -/
def parseU32 (bytes : List Nat) : Option Nat :=
  let digits := if bytes.head? = some 43 then bytes.tail else bytes
  if digits = [] then none
  else match digitsVal digits with
    | some v => if v < 2 ^ 32 then some v else none
    | none => none

/-- The opcode loop of `from_rdb` at wall time `now`, accumulating parsed
entries into `data`. Every iteration consumes at least the opcode byte, so
the structural `fuel` (callers pass `stream length + 1`) never runs out;
the `fuel = 0` case mirrors the failing `read_exact` of an empty stream. -/
def fromRdbLoop (now : Nat) :
    Nat → List Nat → List (List Nat × StoredValue) →
      Except RErr (List (List Nat × StoredValue))
  | _, [], _ => .error .err
  | 0, _ :: _, _ => .error .err
  | fuel + 1, opcode :: rest, data =>
    if opcode = 0xFA then do
      let (_, r1) ← readString rest
      let (_, r2) ← readString r1
      fromRdbLoop now fuel r2 data
    else if opcode = 0xFE then do
      let (_, r1) ← decodeLength rest
      fromRdbLoop now fuel r1 data
    else if opcode = 0xFB then do
      let (_, r1) ← decodeLength rest
      let (_, r2) ← decodeLength r1
      fromRdbLoop now fuel r2 data
    else if opcode = 0xFC then do
      let (buf, r1) ← readExact 8 rest
      let expiresAtMs := fromLeBytes buf
      let (typeBuf, r2) ← readExact 1 r1
      let typeByte := typeBuf.headD 0
      let (key, r3) ← readString r2
      if utf8Valid key then
        if typeByte = 0 then do
          let (value, r4) ← readString r3
          let stored := StoredValue.with_absolute_expiry now value (some expiresAtMs)
          if ¬ stored.is_expired now then
            fromRdbLoop now fuel r4 (mapInsert key stored data)
          else fromRdbLoop now fuel r4 data
        else do
          let r4 ← skipValue typeByte r3
          fromRdbLoop now fuel r4 data
      else .error .err
    else if opcode = 0xFD then do
      let (buf, r1) ← readExact 4 rest
      let expiresAtMs := fromLeBytes buf * 1000
      let (typeBuf, r2) ← readExact 1 r1
      let typeByte := typeBuf.headD 0
      let (key, r3) ← readString r2
      if utf8Valid key then
        if typeByte = 0 then do
          let (value, r4) ← readString r3
          let stored := StoredValue.with_absolute_expiry now value (some expiresAtMs)
          if ¬ stored.is_expired now then
            fromRdbLoop now fuel r4 (mapInsert key stored data)
          else fromRdbLoop now fuel r4 data
        else do
          let r4 ← skipValue typeByte r3
          fromRdbLoop now fuel r4 data
      else .error .err
    else if opcode = 0xFF then .ok data
    else do
      let (key, r1) ← readString rest
      if utf8Valid key then
        if opcode = 0 then do
          let (value, r2) ← readString r1
          fromRdbLoop now fuel r2
            (mapInsert key (StoredValue.fromNow now value none) data)
        else do
          let r2 ← skipValue opcode r1
          fromRdbLoop now fuel r2 data
      else .error .err

/-- `from_rdb` at wall time `now` (all the `SystemTime::now()` reads of one
load, passed explicitly): length check, checksum split and verification,
header and version, then the opcode loop. -/
def fromRdb (now : Nat) (allBytes : List Nat) : Except RErr Storage := do
  if allBytes.length < 9 + 8 then .error .err
  else
    let dataBytes := allBytes.take (allBytes.length - 8)
    let checksumBytes := allBytes.drop (allBytes.length - 8)
    let storedChecksum := fromLeBytes checksumBytes
    if storedChecksum ≠ 0 ∧ crc64 dataBytes ≠ storedChecksum then .error .err
    else do
      let (header, cursor) ← readExact 9 dataBytes
      if header.take 5 = str "REDIS" then
        if utf8Valid (header.drop 5) then
          match parseU32 (header.drop 5) with
          | none => .error .err
          | some _ => do
            let data ← fromRdbLoop now (cursor.length + 1) cursor []
            .ok ⟨data⟩
        else .error .err
      else .error .err

/-- The `0xFA` auxiliary metadata fields of `write_aux_field`. -/
def writeAuxField (key value : List Nat) : List Nat :=
  0xFA :: (writeString key ++ writeString value)

/-- The serialized form of one key-value entry in `to_rdb`: optional
`0xFC` + absolute-deadline prefix, the string type byte, then the
length-prefixed key and value. -/
def entryBytes (entry : List Nat × StoredValue) : List Nat :=
  (match entry.2.expires_at_ms with
    | some expiresAt => 0xFC :: toLe8 expiresAt
    | none => []) ++
  0 :: (writeString entry.1 ++ writeString entry.2.value)

/-- `to_rdb`: header, two aux fields, database selector, resize hint, the
entries, the EOF marker, then the little-endian CRC64 of everything so
far. -/
def toRdb (storage : Storage) : List Nat :=
  let body :=
    str "REDIS" ++ str "0009" ++
    writeAuxField (str "redis-ver") (str "7.0.0") ++
    writeAuxField (str "redis-bits") (str "64") ++
    0xFE :: encodeLength 0 ++
    0xFB :: (encodeLength storage.data.length ++
      encodeLength (storage.data.filter
        (fun e => e.2.expires_at_ms.isSome)).length) ++
    (storage.data.map entryBytes).flatten ++
    [0xFF]
  body ++ toLe8 (crc64 body)

/-- The snapshot-ingestion branch of `handle_connection`
(`src/connection.rs`, the `DataType::Rdb` arm): parse the received bytes as
a snapshot; on success merge every parsed entry into the local store, on
failure (`.ok()` is `None`) leave the store untouched. -/
def ingestSnapshot (now : Nat) (s : Storage) (bytes : List Nat) : Storage :=
  match fromRdb now bytes with
  | .ok received => ⟨received.data.foldl (fun d e => mapInsert e.1 e.2 d) s.data⟩
  | .error _ => s

/-- The effect the `from_rdb` opcode loop has on its accumulated data when
it reads back the serialized form of one entry at load time `now`: an
entry with an absolute deadline is re-inserted with the remaining duration
when the deadline has not passed and is dropped otherwise; an entry
without a deadline is re-inserted fresh. -/
def rdbEntryStep (now : Nat) (d : List (List Nat × StoredValue))
    (e : List Nat × StoredValue) : List (List Nat × StoredValue) :=
  match e.2.expires_at_ms with
  | some exp =>
      if now < exp then
        mapInsert e.1 (StoredValue.with_absolute_expiry now e.2.value
          (some exp)) d
      else d
  | none => mapInsert e.1 (StoredValue.fromNow now e.2.value none) d

/-! ### Buffer windows

`window input p w` says the buffer `input` carries exactly the bytes `w`
starting at absolute position `p`. The round-trip and frame-shape theorems
are stated through it, since the parsers address the buffer absolutely. -/

def window (input : List Nat) (p : Nat) (w : List Nat) : Prop :=
  ∀ i, i < w.length → input[p + i]? = w[i]?

/-- `lineOk v` characterises exactly the byte strings `v` for which the
terminator scan of `find_position_before_terminator`, run on `v ++ CRLF`,
stops at `v.length`: no byte sequence that the scan (with its skip-ahead
after a partial match) reads as a CRLF terminator may occur inside `v`,
and `v` must not end in a bare CR that would fuse with the terminator. -/
def lineOk : List Nat → Bool
  | [] => true
  | a :: rest =>
    if a = 13 then
      match rest with
      | [] => false
      | b :: r2 => b ≠ 10 && lineOk r2
    else lineOk rest

mutual

/-- The serialize-then-parse-faithful messages: the line-oriented fields
contain no byte sequence the terminator scan reads as a CRLF (`lineOk`),
the double renders as a valid `f64` literal, a BigNumber carries an
explicit `+`/`-` sign byte and (when the sign is `+`, which serializes to
no sign byte) a value that does not begin with a sign byte, numeric fields
fit the integer types the parsers read them with, a verbatim string's
encoding contains no `:` separator, and the Rdb variant (which serializes
without a trailing CRLF and is only produced when the buffer ends at the
payload) is excluded. Aggregates require the same of every element. -/
def DataType.wf : DataType → Bool
  | .double v => lineOk v && isF64Lit v
  | .bigNumber sign v =>
      lineOk v &&
      ((sign = 45 : Bool) ||
        ((sign = 43 : Bool) &&
          match v with
          | [] => true
          | b :: _ => b ≠ 43 && b ≠ 45))
  | .integer v => decide (-(2 ^ 63) ≤ v) && decide (v < 2 ^ 63)
  | .simpleError v => lineOk v
  | .bulkString (some v) => decide (v.length < 2 ^ 64)
  | .bulkString none => true
  | .rdb _ => false
  | .bulkError v => decide (v.length < 2 ^ 64)
  | .verbatimString e v =>
      decide (v.length + e.length + 1 < 2 ^ 64) && e.all (fun b => b ≠ 58)
  | .simpleString v => lineOk v
  | .map entries => decide (entries.length < 2 ^ 63) && DataType.wfPairs entries
  | .set elements => decide (elements.length < 2 ^ 63) && DataType.wfList elements
  | .array elements =>
      decide (elements.length < 2 ^ 63) && DataType.wfList elements
  | .push elements =>
      decide (elements.length < 2 ^ 63) && DataType.wfList elements
  | .null => true
  | .boolean _ => true

/-- `wf` on every element of a list. -/
def DataType.wfList : List DataType → Bool
  | [] => true
  | e :: rest => e.wf && DataType.wfList rest

/-- `wf` on every key and value of a map entry list. -/
def DataType.wfPairs : List (DataType × DataType) → Bool
  | [] => true
  | (k, v) :: rest => k.wf && v.wf && DataType.wfPairs rest

end

theorem getElem?_lt {l : List Nat} {i x : Nat} (h : l[i]? = some x) :
    i < l.length := by
  by_contra hc
  rw [List.getElem?_eq_none (by omega)] at h
  simp at h

theorem window_full (input : List Nat) : window input 0 input := by
  intro i _
  simp

theorem window_bound {input : List Nat} {p : Nat} {w : List Nat}
    (hw : window input p w) (hne : w ≠ []) : p + w.length ≤ input.length := by
  have hlen : 0 < w.length := List.length_pos.mpr hne
  have h := hw (w.length - 1) (by omega)
  have h3 := List.getElem?_eq_getElem (show w.length - 1 < w.length by omega)
  have := getElem?_lt (h.trans h3)
  omega

theorem window_get {input : List Nat} {p : Nat} {w : List Nat}
    (hw : window input p w) {i : Nat} (hi : i < w.length) :
    input[p + i]? = some (w.getD i 0) := by
  rw [hw i hi, List.getD_eq_getElem?_getD, List.getElem?_eq_getElem hi]
  rfl

theorem window_split {input : List Nat} {p : Nat} {a b : List Nat}
    (hw : window input p (a ++ b)) :
    window input p a ∧ window input (p + a.length) b := by
  constructor
  · intro i hi
    have h := hw i (by simp; omega)
    rwa [List.getElem?_append, if_pos hi] at h
  · intro i hi
    have h := hw (a.length + i) (by simp; omega)
    rw [List.getElem?_append, if_neg (by omega)] at h
    rw [show p + a.length + i = p + (a.length + i) by omega, h]
    congr 1
    omega

theorem window_mono {input : List Nat} {p : Nat} {a b : List Nat}
    (hw : window input p (a ++ b)) : window input p a :=
  (window_split hw).1

theorem window_slice {input : List Nat} {p : Nat} {w : List Nat}
    (hw : window input p w) {a b : Nat} (hab : a ≤ b) (hb : b ≤ w.length) :
    (input.drop (p + a)).take (b - a) = (w.drop a).take (b - a) := by
  apply List.ext_getElem?
  intro i
  rw [List.getElem?_take, List.getElem?_take]
  by_cases hi : i < b - a
  · rw [if_pos hi, if_pos hi]
    rw [List.getElem?_drop, List.getElem?_drop]
    rw [show p + a + i = p + (a + i) by omega]
    exact hw (a + i) (by omega)
  · rw [if_neg hi, if_neg hi]

theorem window_rustSlice {input : List Nat} {p : Nat} {w : List Nat}
    (hw : window input p w) (hne : w ≠ []) {a b : Nat} (hab : a ≤ b)
    (hb : b ≤ w.length) :
    rustSlice input (p + a) (p + b) = .ok ((w.drop a).take (b - a)) := by
  have hbound := window_bound hw hne
  rw [rustSlice, if_pos (by omega)]
  rw [show p + b - (p + a) = b - a by omega, window_slice hw hab hb]

theorem window_assert {input : List Nat} {p : Nat} {w : List Nat}
    (hw : window input p w) {i : Nat} (hi : i < w.length) :
    readAndAssertSymbol input (w.getD i 0) (p + i) = .ok (p + i + 1) := by
  rw [readAndAssertSymbol, window_get hw hi]
  simp

/-! ### Behaviour of the terminator scan on well-formed lines -/

theorem getD_of_getElem? {l : List Nat} {i a : Nat} (h : l[i]? = some a) :
    l.getD i 0 = a := by
  rw [List.getD_eq_getElem?_getD, h]
  rfl

theorem scanCrlf_miss {input : List Nat} {p a : Nat}
    (hp : input[p]? = some a) (ha : a ≠ 13) :
    scanMatch input crlf 2 p 0 = (p, 0) := by
  rw [scanMatch, if_neg]
  intro hcond
  rw [getD_of_getElem? hp] at hcond
  exact ha (by simpa [crlf] using hcond.2.2)

theorem scanCrlf_partial {input : List Nat} {p b : Nat}
    (hp : input[p]? = some 13) (hq : input[p + 1]? = some b) (hb : b ≠ 10) :
    scanMatch input crlf 2 p 0 = (p + 1, 1) := by
  rw [scanMatch, if_pos]
  · rw [scanMatch, if_neg]
    intro hcond
    rw [getD_of_getElem? hq] at hcond
    exact hb (by simpa [crlf] using hcond.2.2)
  · exact ⟨getElem?_lt hp, by simp [crlf], by rw [getD_of_getElem? hp]; simp [crlf]⟩

theorem scanCrlf_hit {input : List Nat} {p : Nat}
    (hp : input[p]? = some 13) (hq : input[p + 1]? = some 10) :
    scanMatch input crlf 2 p 0 = (p + 2, 2) := by
  rw [scanMatch, if_pos]
  · rw [scanMatch, if_pos]
    · rw [scanMatch]
    · exact ⟨getElem?_lt hq, by simp [crlf],
        by rw [getD_of_getElem? hq]; simp [crlf]⟩
  · exact ⟨getElem?_lt hp, by simp [crlf], by rw [getD_of_getElem? hp]; simp [crlf]⟩

theorem lineOk_cons_ne {a : Nat} {rest : List Nat} (ha : a ≠ 13) :
    lineOk (a :: rest) = lineOk rest := by
  rw [lineOk.eq_def]
  simp [ha]

theorem lineOk_cr_cons {b : Nat} {r2 : List Nat} :
    lineOk (13 :: b :: r2) = (decide (b ≠ 10) && lineOk r2) := by
  rw [lineOk.eq_def]
  simp

theorem lineOk_cr_nil : lineOk [13] = false := by
  rw [lineOk.eq_def]
  simp

theorem findCrlf_nil {input : List Nat} {p fuel : Nat}
    (hw : window input p crlf) (hfuel : input.length + 1 ≤ fuel + p) :
    findPosAux input crlf fuel p = p := by
  have h13 : input[p + 0]? = some 13 := by
    have := window_get hw (show 0 < crlf.length by simp [crlf])
    simpa [crlf] using this
  have h10 : input[p + 1]? = some 10 := by
    have := window_get hw (show 1 < crlf.length by simp [crlf])
    simpa [crlf] using this
  have hplen : p < input.length := by
    have := getElem?_lt h13
    omega
  obtain ⟨f, rfl⟩ : ∃ f, fuel = f + 1 := ⟨fuel - 1, by omega⟩
  rw [findPosAux, if_pos hplen]
  have hs : scanMatch input crlf crlf.length p 0 = (p + 2, 2) :=
    scanCrlf_hit (by simpa using h13) h10
  simp only [hs]
  rw [if_pos (by constructor <;> norm_num [crlf])]
  norm_num [crlf]

theorem findCrlf_aux : ∀ (n : Nat) (v : List Nat), v.length ≤ n →
    lineOk v = true → ∀ (input : List Nat) (p fuel : Nat),
    window input p (v ++ crlf) → input.length + 1 ≤ fuel + p →
    findPosAux input crlf fuel p = p + v.length := by
  intro n
  induction n with
  | zero =>
    intro v hlen hok input p fuel hw hfuel
    have hv : v = [] := List.eq_nil_of_length_eq_zero (by omega)
    subst hv
    simpa using findCrlf_nil (by simpa using hw) hfuel
  | succ n ih =>
    intro v hlen hok input p fuel hw hfuel
    match v with
    | [] =>
      simpa using findCrlf_nil (by simpa using hw) hfuel
    | a :: rest =>
      have hav : input[p + 0]? = some a := by
        have := window_get hw
          (show 0 < ((a :: rest) ++ crlf : List Nat).length by simp)
        simpa using this
      have hplen : p < input.length := by
        have := getElem?_lt hav
        omega
      by_cases ha : a = 13
      · subst ha
        match rest with
        | [] => rw [lineOk_cr_nil] at hok; simp at hok
        | b :: r2 =>
          rw [lineOk_cr_cons] at hok
          have hb : b ≠ 10 := by
            intro hb10
            subst hb10
            simp at hok
          have hokr : lineOk r2 = true := by
            simp at hok
            exact hok.2
          have hbv : input[p + 1]? = some b := by
            have := window_get hw
              (show 1 < ((13 :: b :: r2) ++ crlf : List Nat).length by simp)
            simpa using this
          obtain ⟨f, rfl⟩ : ∃ f, fuel = f + 1 := ⟨fuel - 1, by omega⟩
          rw [findPosAux, if_pos hplen]
          have hs : scanMatch input crlf crlf.length p 0 = (p + 1, 1) :=
            scanCrlf_partial (by simpa using hav) hbv hb
          simp only [hs]
          rw [if_neg (by norm_num [crlf])]
          have hw2 : window input (p + 2) (r2 ++ crlf) := by
            have := (@window_split input p [13, b] (r2 ++ crlf)
              (by simpa using hw)).2
            simpa using this
          have hrec := ih r2 (by simp at hlen; omega) hokr input (p + 2) f hw2
            (by omega)
          norm_num
          rw [show p + 1 + 1 = p + 2 by omega, hrec]
          omega
      · have hokr : lineOk rest = true := by
          rwa [lineOk_cons_ne ha] at hok
        obtain ⟨f, rfl⟩ : ∃ f, fuel = f + 1 := ⟨fuel - 1, by omega⟩
        rw [findPosAux, if_pos hplen]
        have hs : scanMatch input crlf crlf.length p 0 = (p, 0) :=
          scanCrlf_miss (by simpa using hav) ha
        simp only [hs]
        rw [if_neg (by norm_num [crlf])]
        have hw2 : window input (p + 1) (rest ++ crlf) := by
          have := (@window_split input p [a] (rest ++ crlf)
            (by simpa using hw)).2
          simpa using this
        have hrec := ih rest (by simp at hlen; omega) hokr input (p + 1) f hw2
          (by omega)
        rw [hrec]
        simp only [List.length_cons]
        omega

/-- On a buffer carrying `v ++ CRLF` at `p` with `lineOk v`, the terminator
search stops exactly at the end of `v`. -/
theorem findCrlf_window {input : List Nat} {p : Nat} {v : List Nat}
    (hok : lineOk v = true) (hw : window input p (v ++ crlf)) :
    findPositionBeforeTerminator input crlf p = p + v.length :=
  findCrlf_aux (v.length) v le_rfl hok input p (input.length + 1) hw (by omega)

/-! ### Decimal rendering and re-parsing -/

theorem natToDigitsAux_unfold : ∀ (n : Nat), (∀ (fuel : Nat) (acc : List Nat),
    n < fuel → natToDigitsAux fuel n acc = natToDigits n ++ acc) := by
  intro n
  induction n using Nat.strong_induction_on with
  | _ n ih =>
    intro fuel acc hfuel
    obtain ⟨f, rfl⟩ : ∃ f, fuel = f + 1 := ⟨fuel - 1, by omega⟩
    by_cases hn : n < 10
    · rw [natToDigitsAux, if_pos hn, natToDigits, natToDigitsAux, if_pos hn]
      simp
    · have hdiv : n / 10 < n := by omega
      have h2 : natToDigits n = natToDigits (n / 10) ++ [48 + n % 10] := by
        conv_lhs => rw [natToDigits, natToDigitsAux, if_neg hn]
        rw [ih (n / 10) hdiv n ((48 + n % 10) :: []) (by omega)]
      rw [natToDigitsAux, if_neg hn]
      rw [ih (n / 10) hdiv f ((48 + n % 10) :: acc) (by omega), h2]
      simp

theorem natToDigits_small {n : Nat} (hn : n < 10) : natToDigits n = [48 + n] := by
  rw [natToDigits, natToDigitsAux, if_pos hn]

theorem natToDigits_step {n : Nat} (hn : ¬ n < 10) :
    natToDigits n = natToDigits (n / 10) ++ [48 + n % 10] := by
  conv_lhs => rw [natToDigits, natToDigitsAux, if_neg hn]
  rw [natToDigitsAux_unfold (n / 10) n ((48 + n % 10) :: []) (by omega)]

theorem natToDigits_mem_digit : ∀ (n : Nat), ∀ b ∈ natToDigits n,
    48 ≤ b ∧ b ≤ 57 := by
  intro n
  induction n using Nat.strong_induction_on with
  | _ n ih =>
    intro b hb
    by_cases hn : n < 10
    · rw [natToDigits_small hn] at hb
      simp at hb
      omega
    · rw [natToDigits_step hn] at hb
      rw [List.mem_append] at hb
      rcases hb with hb | hb
      · exact ih (n / 10) (by omega) b hb
      · simp at hb
        omega

theorem natToDigits_ne_nil (n : Nat) : natToDigits n ≠ [] := by
  by_cases hn : n < 10
  · rw [natToDigits_small hn]
    simp
  · rw [natToDigits_step hn]
    simp

theorem digitsVal_append {xs ys : List Nat} {a b : Nat}
    (ha : digitsVal xs = some a) (hb : digitsVal ys = some b) :
    digitsVal (xs ++ ys) = some (a * 10 ^ ys.length + b) := by
  induction xs generalizing a with
  | nil =>
    rw [digitsVal] at ha
    cases ha
    simpa using hb
  | cons d xs' ih =>
    rw [digitsVal] at ha
    by_cases hd : 48 ≤ d ∧ d ≤ 57
    · rw [if_pos hd] at ha
      match hxs' : digitsVal xs' with
      | none => rw [hxs'] at ha; simp at ha
      | some a' =>
        rw [hxs'] at ha
        rw [Option.map_some'] at ha
        have ha' : (d - 48) * 10 ^ xs'.length + a' = a := by
          injection ha
        rw [List.cons_append, digitsVal, if_pos hd, ih hxs']
        rw [Option.map_some']
        congr 1
        rw [← ha']
        simp only [List.length_append, pow_add]
        ring
    · rw [if_neg hd] at ha
      simp at ha

theorem digitsVal_natToDigits : ∀ (n : Nat),
    digitsVal (natToDigits n) = some n := by
  intro n
  induction n using Nat.strong_induction_on with
  | _ n ih =>
    by_cases hn : n < 10
    · rw [natToDigits_small hn, digitsVal, if_pos (by omega), digitsVal]
      simp
    · rw [natToDigits_step hn]
      have hlast : digitsVal [48 + n % 10] = some (n % 10) := by
        rw [digitsVal, if_pos (by omega), digitsVal]
        simp
      rw [digitsVal_append (ih (n / 10) (by omega)) hlast]
      congr 1
      simp
      omega

theorem natToDigits_head_ne {n s : Nat} (hs : s < 48) :
    (natToDigits n).head? ≠ some s := by
  intro h
  cases hnd : natToDigits n with
  | nil => exact natToDigits_ne_nil n hnd
  | cons d rest =>
    rw [hnd] at h
    rw [List.head?_cons] at h
    have hds : d = s := by injection h
    have hmem := natToDigits_mem_digit n d (by rw [hnd]; simp)
    omega

theorem parseUsize_natToDigits {n : Nat} (hn : n < 2 ^ 64) :
    parseUsize (natToDigits n) = some n := by
  rw [parseUsize]
  simp only [if_neg (natToDigits_head_ne (show (43 : Nat) < 48 by omega)),
    if_neg (natToDigits_ne_nil n), digitsVal_natToDigits]
  rw [if_pos hn]

theorem parseI64_intToBytes {v : Int} (hlo : -(2 ^ 63) ≤ v)
    (hhi : v < 2 ^ 63) : parseI64 (intToBytes v) = some v := by
  by_cases hv : v < 0
  · rw [intToBytes, if_pos hv, parseI64]
    rw [List.head?_cons]
    rw [if_neg (by simp), if_pos rfl]
    rw [List.tail_cons, digitsVal_natToDigits]
    show (if natToDigits v.natAbs ≠ [] ∧ v.natAbs ≤ 2 ^ 63 then
      some (-Int.ofNat v.natAbs) else none) = some v
    rw [if_pos ⟨natToDigits_ne_nil _, by omega⟩]
    simp [Int.ofNat_natAbs_of_nonpos (show v ≤ 0 by omega)]
  · rw [intToBytes, if_neg hv, parseI64]
    rw [if_neg (natToDigits_head_ne (show (43 : Nat) < 48 by omega)),
      if_neg (natToDigits_head_ne (show (45 : Nat) < 48 by omega)),
      digitsVal_natToDigits]
    show (if natToDigits v.toNat ≠ [] ∧ v.toNat < 2 ^ 63 then
      some (Int.ofNat v.toNat) else none) = some v
    rw [if_pos ⟨natToDigits_ne_nil _, by omega⟩]
    simp [Int.toNat_of_nonneg (show 0 ≤ v by omega)]

theorem lineOk_of_no13 : ∀ (v : List Nat), (∀ b ∈ v, b ≠ 13) →
    lineOk v = true := by
  intro v
  induction v with
  | nil => intro _; rfl
  | cons a rest ih =>
    intro h
    rw [lineOk_cons_ne (h a (by simp))]
    exact ih (fun b hb => h b (by simp [hb]))

theorem lineOk_natToDigits (n : Nat) : lineOk (natToDigits n) = true :=
  lineOk_of_no13 _ (fun b hb => by have := natToDigits_mem_digit n b hb; omega)

theorem lineOk_intToBytes (v : Int) : lineOk (intToBytes v) = true := by
  apply lineOk_of_no13
  intro b hb
  rw [intToBytes] at hb
  by_cases hv : v < 0
  · rw [if_pos hv] at hb
    simp at hb
    rcases hb with hb | hb
    · omega
    · have := natToDigits_mem_digit _ b hb
      omega
  · rw [if_neg hv] at hb
    have := natToDigits_mem_digit _ b hb
    omega

/-! ### Leaf parser specifications on well-formed frames -/

theorem bind_ok {α β : Type} (x : α) (f : α → Except RErr β) :
    (Except.ok x >>= f : Except RErr β) = f x := rfl

theorem assertOf {input : List Nat} {p : Nat} {w : List Nat}
    (hw : window input p w) {i sym : Nat} (hi : i < w.length)
    (hv : w[i]? = some sym) :
    readAndAssertSymbol input sym (p + i) = .ok (p + i + 1) := by
  rw [readAndAssertSymbol, hw i hi, hv]
  simp

theorem parseSimpleString_spec {input : List Nat} {p : Nat} {v : List Nat}
    (hok : lineOk v = true) (hw : window input p (43 :: (v ++ crlf))) :
    parseSimpleString input p = .ok (.simpleString v, p + 1 + v.length + 2) := by
  have hsplit := window_split (a := [43]) (b := v ++ crlf) (by simpa using hw)
  have hw2 : window input (p + 1) (v ++ crlf) := by
    have := hsplit.2
    simpa using this
  have hwc : window input (p + 1 + v.length) crlf := (window_split hw2).2
  have hstart : readAndAssertSymbol input 43 p = .ok (p + 1) := by
    have := assertOf hw (show 0 < (43 :: (v ++ crlf)).length by simp)
      (show (43 :: (v ++ crlf))[0]? = some 43 by simp)
    simpa using this
  have hfind : findPositionBeforeTerminator input crlf (p + 1) =
      p + 1 + v.length := findCrlf_window hok hw2
  have h13 : readAndAssertSymbol input 13 (p + 1 + v.length) =
      .ok (p + 1 + v.length + 1) := by
    have := assertOf hwc (show 0 < crlf.length by simp [crlf])
      (show crlf[0]? = some 13 by simp [crlf])
    simpa using this
  have h10 : readAndAssertSymbol input 10 (p + 1 + v.length + 1) =
      .ok (p + 1 + v.length + 1 + 1) := by
    have := assertOf hwc (show 1 < crlf.length by simp [crlf])
      (show crlf[1]? = some 10 by simp [crlf])
    simpa [Nat.add_assoc] using this
  have hslice : rustSlice input (p + 1) (p + 1 + v.length) = .ok v := by
    have := window_rustSlice hw2 (by simp [crlf]) (show 0 ≤ v.length by omega)
      (show v.length ≤ (v ++ crlf).length by simp)
    simpa [List.take_left] using this
  simp only [parseSimpleString, hstart, bind_ok, hfind, h13, h10, hslice]

/-- All the facts a parser needs about a `v ++ CRLF` segment at `q`. -/
theorem lineParts {input : List Nat} {q : Nat} {v : List Nat}
    (hok : lineOk v = true) (hw : window input q (v ++ crlf)) :
    findPositionBeforeTerminator input crlf q = q + v.length ∧
    readAndAssertSymbol input 13 (q + v.length) = .ok (q + v.length + 1) ∧
    readAndAssertSymbol input 10 (q + v.length + 1) = .ok (q + v.length + 2) ∧
    rustSlice input q (q + v.length) = .ok v := by
  have hwc : window input (q + v.length) crlf := (window_split hw).2
  refine ⟨findCrlf_window hok hw, ?_, ?_, ?_⟩
  · have := assertOf hwc (show 0 < crlf.length by simp [crlf])
      (show crlf[0]? = some 13 by simp [crlf])
    simpa using this
  · have := assertOf hwc (show 1 < crlf.length by simp [crlf])
      (show crlf[1]? = some 10 by simp [crlf])
    simpa [Nat.add_assoc] using this
  · have := window_rustSlice hw (by simp [crlf]) (show 0 ≤ v.length by omega)
      (show v.length ≤ (v ++ crlf).length by simp)
    simpa [List.take_left] using this

theorem parseSimpleError_spec {input : List Nat} {p : Nat} {v : List Nat}
    (hok : lineOk v = true) (hw : window input p (45 :: (v ++ crlf))) :
    parseSimpleError input p = .ok (.simpleError v, p + 1 + v.length + 2) := by
  have hw2 : window input (p + 1) (v ++ crlf) := by
    have := (window_split (a := [45]) (b := v ++ crlf) (by simpa using hw)).2
    simpa using this
  obtain ⟨hfind, h13, h10, hslice⟩ := lineParts hok hw2
  have hstart : readAndAssertSymbol input 45 p = .ok (p + 1) := by
    have := assertOf hw (show 0 < (45 :: (v ++ crlf)).length by simp)
      (show (45 :: (v ++ crlf))[0]? = some 45 by simp)
    simpa using this
  simp only [parseSimpleError, hstart, bind_ok, hfind, h13, h10, hslice]

theorem parseDouble_spec {input : List Nat} {p : Nat} {v : List Nat}
    (hok : lineOk v = true) (hfl : isF64Lit v = true)
    (hw : window input p (44 :: (v ++ crlf))) :
    parseDouble input p = .ok (.double v, p + 1 + v.length + 2) := by
  have hw2 : window input (p + 1) (v ++ crlf) := by
    have := (window_split (a := [44]) (b := v ++ crlf) (by simpa using hw)).2
    simpa using this
  obtain ⟨hfind, h13, h10, hslice⟩ := lineParts hok hw2
  have hstart : readAndAssertSymbol input 44 p = .ok (p + 1) := by
    have := assertOf hw (show 0 < (44 :: (v ++ crlf)).length by simp)
      (show (44 :: (v ++ crlf))[0]? = some 44 by simp)
    simpa using this
  simp only [parseDouble, hstart, bind_ok, hfind, h13, h10, hslice, hfl,
    if_true]

theorem parseInteger_spec {input : List Nat} {p : Nat} {v : Int}
    (hlo : -(2 ^ 63) ≤ v) (hhi : v < 2 ^ 63)
    (hw : window input p (58 :: (intToBytes v ++ crlf))) :
    parseInteger input p = .ok (.integer v, p + 1 + (intToBytes v).length + 2) := by
  have hw2 : window input (p + 1) (intToBytes v ++ crlf) := by
    have := (window_split (a := [58]) (b := intToBytes v ++ crlf)
      (by simpa using hw)).2
    simpa using this
  obtain ⟨hfind, h13, h10, hslice⟩ := lineParts (lineOk_intToBytes v) hw2
  have hstart : readAndAssertSymbol input 58 p = .ok (p + 1) := by
    have := assertOf hw (show 0 < (58 :: (intToBytes v ++ crlf)).length by simp)
      (show (58 :: (intToBytes v ++ crlf))[0]? = some 58 by simp)
    simpa using this
  simp only [parseInteger, hstart, bind_ok, hfind, h13, h10, hslice,
    parseI64_intToBytes hlo hhi]

theorem parseNull_spec {input : List Nat} {p : Nat}
    (hw : window input p (str "_" ++ crlf)) :
    parseNull input p = .ok (.null, p + 3) := by
  have h95 : readAndAssertSymbol input 95 p = .ok (p + 1) := by
    have := assertOf hw (show 0 < (str "_" ++ crlf).length by simp [str, crlf])
      (show (str "_" ++ crlf)[0]? = some 95 by simp [str, crlf])
    simpa using this
  have h13 : readAndAssertSymbol input 13 (p + 1) = .ok (p + 2) := by
    have := assertOf hw (show 1 < (str "_" ++ crlf).length by simp [str, crlf])
      (show (str "_" ++ crlf)[1]? = some 13 by simp [str, crlf])
    simpa using this
  have h10 : readAndAssertSymbol input 10 (p + 2) = .ok (p + 3) := by
    have := assertOf hw (show 2 < (str "_" ++ crlf).length by simp [str, crlf])
      (show (str "_" ++ crlf)[2]? = some 10 by simp [str, crlf])
    simpa using this
  simp only [parseNull, h95, bind_ok, h13, h10]

theorem parseBoolean_spec {input : List Nat} {p : Nat} {value : Bool}
    (hw : window input p (35 :: (if value then 116 else 102) :: crlf)) :
    parseBoolean input p = .ok (.boolean value, p + 4) := by
  have h35 : readAndAssertSymbol input 35 p = .ok (p + 1) := by
    have := assertOf hw
      (show 0 < (35 :: (if value then 116 else 102) :: crlf).length by simp)
      (show (35 :: (if value then 116 else 102) :: crlf)[0]? = some 35 by simp)
    simpa using this
  have hval : input[p + 1]? = some (if value then 116 else 102) := by
    exact hw 1 (by simp)
  have h13 : readAndAssertSymbol input 13 (p + 2) = .ok (p + 3) := by
    have := assertOf hw
      (show 2 < (35 :: (if value then 116 else 102) :: crlf).length by simp [crlf])
      (show (35 :: (if value then 116 else 102) :: crlf)[2]? = some 13 by
        simp [crlf])
    simpa using this
  have h10 : readAndAssertSymbol input 10 (p + 3) = .ok (p + 4) := by
    have := assertOf hw
      (show 3 < (35 :: (if value then 116 else 102) :: crlf).length by simp [crlf])
      (show (35 :: (if value then 116 else 102) :: crlf)[3]? = some 10 by
        simp [crlf])
    simpa using this
  simp only [parseBoolean, h35, bind_ok, hval, h13, h10]
  cases value with
  | true => simp
  | false => simp

/-! ### Lookup/insert lemmas for the store -/

theorem mapLookup_insert (k : List Nat) (v : StoredValue) :
    ∀ (l : List (List Nat × StoredValue)),
    mapLookup k (mapInsert k v l) = some v := by
  intro l
  induction l with
  | nil => simp [mapInsert, mapLookup]
  | cons e rest ih =>
    obtain ⟨k1, v1⟩ := e
    by_cases hk : k1 = k
    · subst hk
      simp [mapInsert, mapLookup]
    · rw [mapInsert, if_neg hk, mapLookup, if_neg hk]
      exact ih

/-! ### Claim theorems: store expiry (C3) -/

/-- C3: after `set k v` with TTL `t` at time `T0`, `get k` before `T0 + t`
returns `v` and at or after `T0 + t` returns `None` (the entry is logically
absent); a value stored with no TTL is returned at every time. The `u128`
reads of the wall clock cannot overflow for any time the system can
represent, matching the plain `Nat` arithmetic here. -/
theorem storage_set_get_expiry (s : Storage) (k v : List Nat) (t T0 τ : Nat) :
    (τ < T0 + t → (s.set T0 k v (some t)).get τ k = some v) ∧
    (T0 + t ≤ τ → (s.set T0 k v (some t)).get τ k = none) ∧
    (s.set T0 k v none).get τ k = some v := by
  refine ⟨?_, ?_, ?_⟩
  · intro hτ
    rw [Storage.get, Storage.set, mapLookup_insert]
    simp only [StoredValue.fromNow]
    rw [if_neg (by simp; omega)]
  · intro hτ
    rw [Storage.get, Storage.set, mapLookup_insert]
    simp only [StoredValue.fromNow]
    rw [if_pos (by simp; omega)]
  · rw [Storage.get, Storage.set, mapLookup_insert]
    simp [StoredValue.fromNow]

/-- Witness for C3 at concrete values: `set` at time 100 with TTL 5;
reads at 104, 105 and (without TTL) 100000. -/
theorem storage_set_get_expiry_witness :
    (Storage.get (Storage.set ⟨[]⟩ 100 [107] [118] (some 5)) 104 [107] =
      some [118]) ∧
    (Storage.get (Storage.set ⟨[]⟩ 100 [107] [118] (some 5)) 105 [107] =
      none) ∧
    (Storage.get (Storage.set ⟨[]⟩ 100 [107] [118] none) 100000 [107] =
      some [118]) :=
  ⟨(storage_set_get_expiry ⟨[]⟩ [107] [118] 5 100 104).1 (by omega),
   (storage_set_get_expiry ⟨[]⟩ [107] [118] 5 100 105).2.1 (by omega),
   (storage_set_get_expiry ⟨[]⟩ [107] [118] 5 100 100000).2.2⟩

/-! ### Claim theorems: `$-` frames (C10) -/

/-- C10: whenever the byte at `position` is `$` and the next byte is `-`,
`parse` succeeds with the null bulk string and position `position + 5`,
regardless of all other buffer contents (so the bytes after `$-` need not
be `1\r\n`, and the position may point past the end of the buffer). -/
theorem parse_null_bulk_shortcut (input : List Nat) (p : Nat)
    (h36 : input[p]? = some 36) (h45 : input[p + 1]? = some 45) :
    DataType.parse input p = .ok (.bulkString none, p + 5) := by
  have hlen : p < input.length := getElem?_lt h36
  obtain ⟨f, hf⟩ : ∃ f, input.length + 1 = f + 1 := ⟨input.length, rfl⟩
  rw [DataType.parse, hf, parseD, h36]
  norm_num
  have hstart : readAndAssertSymbol input 36 p = .ok (p + 1) := by
    rw [readAndAssertSymbol, h36]
    simp
  rw [parseBulkStringOrRdb, hstart, bind_ok, if_neg (by rw [h45]; simp)]
  simp [str, crlf]

/-- Witness for C10: the two-byte buffer `$-` parses to the null bulk with
new position 5, beyond the end of the buffer. -/
theorem parse_null_bulk_shortcut_witness :
    DataType.parse [36, 45] 0 = .ok (.bulkString none, 0 + 5) :=
  parse_null_bulk_shortcut [36, 45] 0 (by rfl) (by rfl)

/-! ### Claim theorems: CRC64 (C8) -/

set_option maxRecDepth 100000 in
/-- C8: the CRC64 of `src/rdb.rs` (Jones polynomial, reflected, zero init,
256-entry table) maps the empty string to 0 and `"123456789"` to
`0xe9c6d914c4b8d9ca`. -/
theorem crc64_test_vectors :
    crc64 [] = 0 ∧ crc64 (str "123456789") = 0xe9c6d914c4b8d9ca :=
  ⟨rfl, rfl⟩

/-! ### Claim theorems: snapshot-ingestion atomicity (C9) -/

/-- C9: if parsing the received snapshot bytes fails for any reason, the
`Rdb` arm of `handle_connection` leaves the local store exactly unchanged;
entries are merged only from a successfully checksum-verified and parsed
snapshot. -/
theorem ingest_atomic (now : Nat) (s : Storage) (bytes : List Nat)
    (e : RErr) (hfail : fromRdb now bytes = .error e) :
    ingestSnapshot now s bytes = s := by
  rw [ingestSnapshot, hfail]

/-- Witness for C9: a truncated snapshot (empty input) and a snapshot with
a corrupted checksum both leave a nonempty store untouched. -/
theorem ingest_atomic_witness :
    ingestSnapshot 0 ⟨[([107], ⟨none, 0, [118]⟩)]⟩ [] =
      ⟨[([107], ⟨none, 0, [118]⟩)]⟩ :=
  ingest_atomic 0 _ [] .err (by rfl)

/-! ### Claim theorems: parser failure mode on truncated `$` frames (C5) -/

/-- C5 failing input: on `"$5\r\nab"` — a `$` frame whose declared payload
extends past the end of the buffer — `parse` panics (out-of-bounds slice
`input[4..9]` on a 6-byte buffer) instead of returning an error. The same
slice panic hits `"$5\r"`, where the length scan runs one past the end. -/
theorem parse_truncated_bulk_panics :
    DataType.parse (str "$5\r\nab") 0 = .error .panic ∧
    DataType.parse (str "$5\r") 0 = .error .panic :=
  ⟨rfl, rfl⟩

/-! ### Claim theorems: command-name dispatch (C6) -/

/-- C6 counterexample: the lower-case spelling `ping` is dispatched to no
handler, while `PING` reaches the PING handler — dispatch is not
case-insensitive. -/
theorem dispatch_case_counterexample :
    dispatchCommand (.array [.bulkString (some (str "ping"))]) = .ok none ∧
    dispatchCommand (.array [.bulkString (some (str "PING"))]) =
      .ok (some .ping) :=
  ⟨rfl, rfl⟩

/-- C6 amended: the dispatcher compares the parsed command name literally
(case-sensitively) against the eight upper-case spellings; any other
rendering of element 0 — including any other case variant — builds no
command. -/
theorem dispatch_exact_match (message : DataType) (name : List Nat)
    (hname : parseCommandName message = .ok name) :
    dispatchCommand message = .ok (
      if name = str "ECHO" then some .echo
      else if name = str "PING" then some .ping
      else if name = str "SET" then some .set
      else if name = str "GET" then some .get
      else if name = str "COMMAND" then some .command
      else if name = str "INFO" then some .info
      else if name = str "REPLCONF" then some .replconf
      else if name = str "PSYNC" then some .psync
      else none) := by
  rw [dispatchCommand, hname, bind_ok]
  split_ifs <;> rfl

/-- Witness for C6 (amended) at the concrete message `["PING"]`. -/
theorem dispatch_exact_match_witness :
    dispatchCommand (.array [.bulkString (some (str "PING"))]) =
      .ok (some .ping) := by
  have := dispatch_exact_match (.array [.bulkString (some (str "PING"))])
    (str "PING") (by rfl)
  simpa using this

/-! ### Claim theorems: REPLCONF (C7) -/

/-- C7 counterexample: a non-GETACK REPLCONF reply is the bulk string `OK`
(wire form `$2\r\nOK\r\n`), not the simple string `+OK\r\n`. -/
theorem replconf_reply_counterexample :
    replConfExecute (.array [.bulkString (some (str "REPLCONF")),
      .bulkString (some (str "listening-port")),
      .bulkString (some (str "6380"))]) =
      .ok [.bulkString (some (str "OK"))] ∧
    (DataType.bulkString (some (str "OK"))).serialize = str "$2\r\nOK\r\n" ∧
    str "$2\r\nOK\r\n" ≠ str "+OK\r\n" :=
  ⟨rfl, rfl, by decide⟩

/-- C7 amended: for every message whose rendered elements give REPLCONF a
subcommand (element 1), execute returns exactly one reply: the three-element
array `REPLCONF ACK 0` when the subcommand lowercases to `getack`, and the
bulk string `OK` (wire form `$2\r\nOK\r\n`) otherwise; and REPLCONF is the
only command whose always-reply flag is set. The all-ASCII hypothesis marks
the scope on which the embedded `asciiLower` agrees with Rust
`str::to_lowercase`. -/
theorem replconf_execute_spec :
    (∀ (message : DataType) (instructions : List (List Nat)) (sub : List Nat),
      message.asArray = .ok instructions → instructions[1]? = some sub →
      (∀ b ∈ sub, b < 128) →
      replConfExecute message = .ok (
        if asciiLower sub = str "getack" then
          [.array [.bulkString (some (str "REPLCONF")),
            .bulkString (some (str "ACK")), .bulkString (some (str "0"))]]
        else [.bulkString (some (str "OK"))])) ∧
    (∀ k : CommandKind, shouldAlwaysReply k = true ↔ k = .replconf) := by
  constructor
  · intro message instructions sub hins hsub _
    simp only [replConfExecute, hins, bind_ok, hsub]
    split_ifs <;> rfl
  · intro k
    cases k <;> simp [shouldAlwaysReply]

/-- Witness for C7 (amended): the `listening-port` and `getack` replies at
concrete messages. -/
theorem replconf_execute_spec_witness :
    replConfExecute (.array [.bulkString (some (str "REPLCONF")),
      .bulkString (some (str "listening-port")),
      .bulkString (some (str "6380"))]) =
      .ok [.bulkString (some (str "OK"))] ∧
    replConfExecute (.array [.bulkString (some (str "REPLCONF")),
      .bulkString (some (str "GETACK")),
      .bulkString (some (str "*"))]) =
      .ok [.array [.bulkString (some (str "REPLCONF")),
        .bulkString (some (str "ACK")), .bulkString (some (str "0"))]] := by
  constructor
  · have := replconf_execute_spec.1
      (.array [.bulkString (some (str "REPLCONF")),
        .bulkString (some (str "listening-port")),
        .bulkString (some (str "6380"))])
      [str "REPLCONF", str "listening-port", str "6380"]
      (str "listening-port") (by rfl) (by rfl) (by decide)
    simpa using this
  · have := replconf_execute_spec.1
      (.array [.bulkString (some (str "REPLCONF")),
        .bulkString (some (str "GETACK")),
        .bulkString (some (str "*"))])
      [str "REPLCONF", str "GETACK", str "*"]
      (str "GETACK") (by rfl) (by rfl) (by decide)
    simpa using this

/-! ### The `$` frame: bulk string vs snapshot lookahead -/

theorem parseUsize_of_digits {ds : List Nat} {n : Nat}
    (hd : allDigits ds = true) (hne : ds ≠ [])
    (hval : digitsVal ds = some n) (hn : n < 2 ^ 64) :
    parseUsize ds = some n := by
  have hhead : ds.head? ≠ some 43 := by
    match ds with
    | d :: rest =>
      rw [List.head?_cons]
      intro h
      have hd48 : 48 ≤ d ∧ d ≤ 57 := by
        rw [allDigits] at hd
        have := List.all_eq_true.mp hd d (by simp)
        simpa using this
      have : d = 43 := by injection h
      omega
  rw [parseUsize]
  simp only [if_neg hhead, if_neg hne, hval]
  rw [if_pos hn]

theorem lineOk_of_digits {ds : List Nat} (hd : allDigits ds = true) :
    lineOk ds = true := by
  apply lineOk_of_no13
  intro b hb
  rw [allDigits] at hd
  have := List.all_eq_true.mp hd b hb
  simp at this
  omega

theorem drop_take_two {input : List Nat} {q a b : Nat}
    (ha : input[q]? = some a) (hb : input[q + 1]? = some b) :
    (input.drop q).take 2 = [a, b] := by
  apply List.ext_getElem?
  intro i
  match i with
  | 0 =>
    rw [List.getElem?_take, if_pos (by omega), List.getElem?_drop]
    simpa using ha
  | 1 =>
    rw [List.getElem?_take, if_pos (by omega), List.getElem?_drop]
    simpa using hb
  | i + 2 =>
    rw [List.getElem?_take, if_neg (by omega)]
    simp

theorem maybeSliceOf_crlf_pos {input : List Nat} {q : Nat}
    (h13 : input[q]? = some 13) (h10 : input[q + 1]? = some 10) :
    maybeSliceOf input q (q + 2) = some crlf := by
  have hq : q + 1 < input.length := getElem?_lt h10
  rw [maybeSliceOf, if_neg (by omega)]
  rw [show q + 2 - q = 2 by omega, drop_take_two h13 h10]
  rfl

theorem maybeSliceOf_crlf_neg {input : List Nat} {q : Nat}
    (h : ¬ (input[q]? = some 13 ∧ input[q + 1]? = some 10)) :
    maybeSliceOf input q (q + 2) ≠ some crlf := by
  intro hc
  rw [maybeSliceOf] at hc
  by_cases hb : q > input.length ∨ q + 2 > input.length ∨ q > q + 2
  · rw [if_pos hb] at hc
    exact absurd hc (by simp)
  · rw [if_neg hb] at hc
    have he : (input.drop q).take (q + 2 - q) = crlf := by injection hc
    rw [show q + 2 - q = 2 by omega] at he
    have hql : q + 2 ≤ input.length := by omega
    have h13 : input[q]? = some 13 := by
      have := congrArg (fun l => l[0]?) he
      simp only [crlf] at this
      rw [List.getElem?_take, if_pos (by omega), List.getElem?_drop] at this
      simpa using this
    have h10 : input[q + 1]? = some 10 := by
      have := congrArg (fun l => l[1]?) he
      simp only [crlf] at this
      rw [List.getElem?_take, if_pos (by omega), List.getElem?_drop] at this
      simpa using this
    exact h ⟨h13, h10⟩

/-- The complete behaviour of `parse_bulk_string_or_rdb` on a `$` frame
whose decimal length field `ds` (value `n`) is followed by exactly `n`
payload bytes: a CRLF immediately after the payload makes it a BulkString
consuming the CRLF; anything else — including the buffer ending at the
payload's last byte — makes it an Rdb frame ending at the payload. -/
theorem parseBulkStringOrRdb_spec {input : List Nat} {p : Nat}
    {ds payload : List Nat} {n : Nat}
    (hd : allDigits ds = true) (hne : ds ≠ [])
    (hval : digitsVal ds = some n) (hn : n < 2 ^ 64)
    (hlen : payload.length = n)
    (hw : window input p (36 :: (ds ++ crlf ++ payload))) :
    parseBulkStringOrRdb input p =
      if input[p + 1 + ds.length + 2 + n]? = some 13 ∧
          input[p + 1 + ds.length + 2 + n + 1]? = some 10 then
        .ok (.bulkString (some payload), p + 1 + ds.length + 2 + n + 2)
      else .ok (.rdb payload, p + 1 + ds.length + 2 + n) := by
  have hstart : readAndAssertSymbol input 36 p = .ok (p + 1) := by
    have := assertOf hw (show 0 < (36 :: (ds ++ crlf ++ payload)).length by simp)
      (show (36 :: (ds ++ crlf ++ payload))[0]? = some 36 by simp)
    simpa using this
  have hw2 : window input (p + 1) (ds ++ crlf ++ payload) := by
    have := (window_split (a := [36]) (b := ds ++ crlf ++ payload)
      (by simpa using hw)).2
    simpa using this
  have hwdc : window input (p + 1) (ds ++ crlf) :=
    window_mono (by simpa using hw2)
  obtain ⟨hfind, h13d, h10d, hsliceD⟩ := lineParts (lineOk_of_digits hd) hwdc
  have hfirst : input[p + 1]? ≠ some 45 := by
    match ds, hne with
    | d :: rest, _ =>
      have h1 : input[(p + 1) + 0]? = some d := by
        have := window_get hwdc (show 0 < ((d :: rest) ++ crlf).length by simp)
        simpa using this
      have hd48 : 48 ≤ d ∧ d ≤ 57 := by
        rw [allDigits] at hd
        have := List.all_eq_true.mp hd d (by simp)
        simpa using this
      simp only [Nat.add_zero] at h1
      rw [h1]
      intro hcon
      have : d = 45 := by injection hcon
      omega
  have hpu : parseUsize ds = some n := parseUsize_of_digits hd hne hval hn
  have hwp : window input (p + 1 + (ds.length + 2)) payload := by
    have := (window_split (a := ds ++ crlf) (b := payload)
      (by simpa using hw2)).2
    simpa [Nat.add_assoc] using this
  have hsliceP : rustSlice input (p + 1 + ds.length + 2)
      (p + 1 + ds.length + 2 + n) = .ok payload := by
    by_cases hpe : payload = []
    · subst hpe
      simp only [List.length_nil] at hlen
      rw [rustSlice, if_pos ?_]
      · rw [show p + 1 + ds.length + 2 + n - (p + 1 + ds.length + 2) = n by
          omega, ← hlen]
        simp
      · constructor
        · omega
        · have := window_bound hwdc (by simp [crlf])
          simp [crlf] at this
          omega
    · have := window_rustSlice hwp hpe (show 0 ≤ payload.length by omega)
        le_rfl
      rw [show p + 1 + ds.length + 2 + n = p + 1 + (ds.length + 2) +
          payload.length by omega,
        show p + 1 + ds.length + 2 = p + 1 + (ds.length + 2) by omega]
      simpa using this
  simp only [parseBulkStringOrRdb, hstart, bind_ok]
  rw [if_pos hfirst]
  simp only [hfind]
  rw [show p + 1 + ds.length = p + 1 + ds.length by rfl]
  simp only [hsliceD, bind_ok, hpu, h13d, h10d]
  by_cases hcr : input[p + 1 + ds.length + 2 + n]? = some 13 ∧
      input[p + 1 + ds.length + 2 + n + 1]? = some 10
  · rw [if_pos hcr]
    have hms := maybeSliceOf_crlf_pos hcr.1 hcr.2
    rw [show p + 1 + ds.length + 2 + n + 2 =
      (p + 1 + ds.length + 2 + n) + 2 by omega] at hms ⊢
    simp only [hms, if_true, hsliceP, bind_ok]
  · rw [if_neg hcr]
    have hms := maybeSliceOf_crlf_neg hcr
    rw [show (p + 1 + ds.length + 2 + n) + 2 =
      p + 1 + ds.length + 2 + n + 2 by omega] at hms
    rw [if_neg hms]
    simp only [hsliceP, bind_ok]

/-- C4: `parse` on a `$` frame with a non-negative decimal length field
`ds` (of value `n`) followed by exactly `n` payload bytes: if the two bytes
immediately after the payload are CRLF the frame is a BulkString and the
position moves just past that CRLF; otherwise (including when the buffer
ends at the payload's last byte) the frame is the Snapshot/Rdb variant and
the position stops at the end of the payload. -/
theorem parse_bulk_frame {input : List Nat} {p : Nat}
    {ds payload : List Nat} {n : Nat}
    (hd : allDigits ds = true) (hne : ds ≠ [])
    (hval : digitsVal ds = some n) (hn : n < 2 ^ 64)
    (hlen : payload.length = n)
    (hw : window input p (36 :: (ds ++ crlf ++ payload))) :
    DataType.parse input p =
      if input[p + 1 + ds.length + 2 + n]? = some 13 ∧
          input[p + 1 + ds.length + 2 + n + 1]? = some 10 then
        .ok (.bulkString (some payload), p + 1 + ds.length + 2 + n + 2)
      else .ok (.rdb payload, p + 1 + ds.length + 2 + n) := by
  have h36 : input[p]? = some 36 := by
    have := window_get hw (show 0 < (36 :: (ds ++ crlf ++ payload)).length by simp)
    simpa using this
  obtain ⟨f, hf⟩ : ∃ f, input.length + 1 = f + 1 := ⟨input.length, rfl⟩
  rw [DataType.parse, hf, parseD, h36]
  norm_num
  exact parseBulkStringOrRdb_spec hd hne hval hn hlen hw

/-- Witness for C4: `"$3\r\nabc\r\n"` parses as a BulkString to position 9;
`"$3\r\nabc"` parses as an Rdb frame to position 7. -/
theorem parse_bulk_frame_witness :
    DataType.parse (str "$3\r\nabc\r\n") 0 = .ok (.bulkString (some (str "abc")), 9) ∧
    DataType.parse (str "$3\r\nabc") 0 = .ok (.rdb (str "abc"), 7) := by
  constructor
  · have h := @parse_bulk_frame (str "$3\r\nabc\r\n") 0
      [51] (str "abc") 3
      (by decide) (by decide) (by decide) (by decide) (by decide)
      (by intro i hi
          have hi7 : i < 7 := by simp [str, crlf] at hi; omega
          interval_cases i <;> rfl)
    rw [if_pos (by exact ⟨rfl, rfl⟩)] at h
    simpa using h
  · have h := @parse_bulk_frame (str "$3\r\nabc") 0
      [51] (str "abc") 3
      (by decide) (by decide) (by decide) (by decide) (by decide)
      (by intro i hi
          have hi7 : i < 7 := by simp [str, crlf] at hi; omega
          interval_cases i <;> rfl)
    rw [if_neg (by intro hc; exact absurd hc.1 (by decide))] at h
    simpa using h

/-! ### Remaining leaf parser specifications -/

/-- The positional facts about a `v ++ CRLF` segment at `q` (no terminator
scan involved): the CRLF asserts at the end of `v` and the slice of `v`. -/
theorem linePartsAt {input : List Nat} {q : Nat} {v : List Nat}
    (hw : window input q (v ++ crlf)) :
    readAndAssertSymbol input 13 (q + v.length) = .ok (q + v.length + 1) ∧
    readAndAssertSymbol input 10 (q + v.length + 1) = .ok (q + v.length + 2) ∧
    rustSlice input q (q + v.length) = .ok v := by
  have hwc : window input (q + v.length) crlf := (window_split hw).2
  refine ⟨?_, ?_, ?_⟩
  · have := assertOf hwc (show 0 < crlf.length by simp [crlf])
      (show crlf[0]? = some 13 by simp [crlf])
    simpa using this
  · have := assertOf hwc (show 1 < crlf.length by simp [crlf])
      (show crlf[1]? = some 10 by simp [crlf])
    simpa [Nat.add_assoc] using this
  · have := window_rustSlice hw (by simp [crlf]) (show 0 ≤ v.length by omega)
      (show v.length ≤ (v ++ crlf).length by simp)
    simpa [List.take_left] using this

theorem parseBulkNull_spec {input : List Nat} {p : Nat}
    (h36 : input[p]? = some 36) (h45 : input[p + 1]? = some 45) :
    parseBulkStringOrRdb input p = .ok (.bulkString none, p + 5) := by
  have hstart : readAndAssertSymbol input 36 p = .ok (p + 1) := by
    rw [readAndAssertSymbol, h36]
    simp
  rw [parseBulkStringOrRdb, hstart, bind_ok, if_neg (by rw [h45]; simp)]
  simp [str, crlf]

theorem parseBulkError_spec {input : List Nat} {p : Nat} {v : List Nat}
    (hlen : v.length < 2 ^ 64)
    (hw : window input p (33 :: (natToDigits v.length ++ crlf ++ v ++ crlf))) :
    parseBulkError input p =
      .ok (.bulkError v,
        p + 1 + (natToDigits v.length).length + 2 + v.length + 2) := by
  have hstart : readAndAssertSymbol input 33 p = .ok (p + 1) := by
    have := assertOf hw (show 0 <
        (33 :: (natToDigits v.length ++ crlf ++ v ++ crlf)).length by simp)
      (show (33 :: (natToDigits v.length ++ crlf ++ v ++ crlf))[0]? =
        some 33 by simp)
    simpa using this
  have hw2 : window input (p + 1) (natToDigits v.length ++ crlf ++ v ++ crlf) := by
    have := (window_split (a := [33])
      (b := natToDigits v.length ++ crlf ++ v ++ crlf) (by simpa using hw)).2
    simpa using this
  have hwdc : window input (p + 1) (natToDigits v.length ++ crlf) :=
    window_mono (by simpa using hw2)
  obtain ⟨hfind, h13d, h10d, hsliceD⟩ :=
    lineParts (lineOk_natToDigits v.length) hwdc
  have hpu : parseUsize (natToDigits v.length) = some v.length :=
    parseUsize_natToDigits hlen
  set dl := (natToDigits v.length).length with hdl
  have hwvc : window input (p + 1 + (dl + 2)) (v ++ crlf) := by
    have := (window_split (a := natToDigits v.length ++ crlf) (b := v ++ crlf)
      (by simpa using hw2)).2
    simpa [Nat.add_assoc] using this
  obtain ⟨h13v, h10v, hsliceV⟩ := linePartsAt hwvc
  simp only [parseBulkError, hstart, bind_ok, hfind, hsliceD, hpu, h13d, h10d]
  rw [show p + 1 + dl + 2 + v.length = p + 1 + (dl + 2) + v.length by omega,
    show p + 1 + dl + 2 = p + 1 + (dl + 2) by omega]
  simp only [h13v, h10v, hsliceV, bind_ok]

theorem parseI64_natToDigits {n : Nat} (hn : n < 2 ^ 63) :
    parseI64 (natToDigits n) = some (Int.ofNat n) := by
  rw [parseI64]
  rw [if_neg (natToDigits_head_ne (show (43 : Nat) < 48 by omega)),
    if_neg (natToDigits_head_ne (show (45 : Nat) < 48 by omega)),
    digitsVal_natToDigits]
  show (if natToDigits n ≠ [] ∧ n < 2 ^ 63 then some (Int.ofNat n) else none) =
    some (Int.ofNat n)
  rw [if_pos ⟨natToDigits_ne_nil _, hn⟩]

theorem findIdx_colon {e v : List Nat} (hno : ∀ b ∈ e, b ≠ 58) :
    (e ++ 58 :: v).findIdx? (fun ch => ch = 58) = some e.length := by
  induction e with
  | nil => simp [List.findIdx?_cons]
  | cons a rest ih =>
    rw [List.cons_append, List.findIdx?_cons]
    have ha : a ≠ 58 := hno a (by simp)
    rw [if_neg (by simpa using ha)]
    rw [List.findIdx?_succ, ih (fun b hb => hno b (by simp [hb]))]
    simp

theorem parseVerbatimString_spec {input : List Nat} {p : Nat}
    {e v : List Nat} (hno : ∀ b ∈ e, b ≠ 58)
    (hlen : v.length + e.length + 1 < 2 ^ 64)
    (hw : window input p (61 :: (natToDigits (v.length + e.length + 1) ++
      crlf ++ e ++ 58 :: v ++ crlf))) :
    parseVerbatimString input p =
      .ok (.verbatimString e v,
        p + 1 + (natToDigits (v.length + e.length + 1)).length + 2 +
          (v.length + e.length + 1) + 2) := by
  set D := natToDigits (v.length + e.length + 1) with hD
  set content : List Nat := e ++ 58 :: v with hcontent
  have hclen : content.length = v.length + e.length + 1 := by
    rw [hcontent]
    simp
    omega
  have hwin : window input p (61 :: (D ++ crlf ++ content ++ crlf)) := by
    have hshape : (61 : Nat) :: (D ++ crlf ++ e ++ 58 :: v ++ crlf) =
        61 :: (D ++ crlf ++ content ++ crlf) := by
      rw [hcontent]
      simp
    rw [← hshape]
    simpa using hw
  have hstart : readAndAssertSymbol input 61 p = .ok (p + 1) := by
    have := assertOf hwin
      (show 0 < (61 :: (D ++ crlf ++ content ++ crlf)).length by simp)
      (show (61 :: (D ++ crlf ++ content ++ crlf))[0]? = some 61 by simp)
    simpa using this
  have hw2 : window input (p + 1) (D ++ crlf ++ content ++ crlf) := by
    have := (window_split (a := [61]) (b := D ++ crlf ++ content ++ crlf)
      (by simpa using hwin)).2
    simpa using this
  have hwdc : window input (p + 1) (D ++ crlf) :=
    window_mono (by simpa using hw2)
  have hokD : lineOk D = true := by
    rw [hD]
    exact lineOk_natToDigits (v.length + e.length + 1)
  obtain ⟨hfind, h13d, h10d, hsliceD⟩ := lineParts hokD hwdc
  have hpu : parseUsize D = some (v.length + e.length + 1) := by
    rw [hD]
    exact parseUsize_natToDigits hlen
  set dl := D.length with hdl
  have hwvc : window input (p + 1 + (dl + 2)) (content ++ crlf) := by
    have := (window_split (a := D ++ crlf) (b := content ++ crlf)
      (by simpa using hw2)).2
    simpa [Nat.add_assoc] using this
  obtain ⟨h13v, h10v, hsliceV⟩ := linePartsAt hwvc
  rw [hclen] at h13v h10v hsliceV
  simp only [parseVerbatimString, hstart, bind_ok, hfind, hsliceD, hpu,
    h13d, h10d]
  rw [show p + 1 + dl + 2 + (v.length + e.length + 1) =
      p + 1 + (dl + 2) + (v.length + e.length + 1) by omega,
    show p + 1 + dl + 2 = p + 1 + (dl + 2) by omega]
  simp only [h13v, h10v, hsliceV, bind_ok]
  have hfi : content.findIdx? (fun ch => ch = 58) = some e.length := by
    rw [hcontent]
    exact findIdx_colon hno
  simp only [hfi]
  have hee : List.take e.length (content ++ crlf) = e := by
    rw [hcontent, show (e ++ 58 :: v) ++ crlf = e ++ (58 :: (v ++ crlf)) by
      simp]
    exact List.take_left e (58 :: (v ++ crlf))
  have hsliceE : rustSlice input (p + 1 + (dl + 2))
      (p + 1 + (dl + 2) + e.length) = .ok e := by
    have h := window_rustSlice hwvc (by simp [crlf])
      (show 0 ≤ e.length by omega)
      (show e.length ≤ (content ++ crlf).length by rw [hcontent]; simp)
    simp only [Nat.add_zero, Nat.sub_zero, List.drop_zero] at h
    rw [hee] at h
    exact h
  have hvv : List.take v.length ((content ++ crlf).drop (e.length + 1)) = v := by
    rw [hcontent, show (e ++ 58 :: v) ++ crlf = e ++ (58 :: (v ++ crlf)) by
      simp]
    rw [List.drop_append_eq_append_drop]
    rw [List.drop_eq_nil_of_le (by omega)]
    rw [show e.length + 1 - e.length = 1 by omega]
    simp only [List.drop_succ_cons, List.drop_zero, List.nil_append]
    exact List.take_left v crlf
  have hsliceVal : rustSlice input (p + 1 + (dl + 2) + e.length + 1)
      (p + 1 + (dl + 2) + (v.length + e.length + 1)) = .ok v := by
    have h := window_rustSlice hwvc (by simp [crlf])
      (show e.length + 1 ≤ v.length + e.length + 1 by omega)
      (show v.length + e.length + 1 ≤ (content ++ crlf).length by
        rw [hcontent]; simp; omega)
    rw [show v.length + e.length + 1 - (e.length + 1) = v.length by omega] at h
    rw [hvv] at h
    rw [show p + 1 + (dl + 2) + e.length + 1 =
      p + 1 + (dl + 2) + (e.length + 1) by omega]
    exact h
  simp only [hsliceE, hsliceVal, bind_ok]

theorem allDigits_natToDigits (n : Nat) : allDigits (natToDigits n) = true := by
  rw [allDigits]
  apply List.all_eq_true.mpr
  intro b hb
  have := natToDigits_mem_digit n b hb
  simpa using this

theorem parseBigNumberNeg_spec {input : List Nat} {p : Nat} {v : List Nat}
    (hok : lineOk v = true)
    (hw : window input p (40 :: 45 :: (v ++ crlf))) :
    parseBigNumber input p = .ok (.bigNumber 45 v, p + 2 + v.length + 2) := by
  have hstart : readAndAssertSymbol input 40 p = .ok (p + 1) := by
    have := assertOf hw (show 0 < (40 :: 45 :: (v ++ crlf)).length by simp)
      (show (40 :: 45 :: (v ++ crlf))[0]? = some 40 by simp)
    simpa using this
  have h45 : input[p + 1]? = some 45 := by
    have := window_get hw (show 1 < (40 :: 45 :: (v ++ crlf)).length by
      simp [crlf])
    simpa using this
  have hw2 : window input (p + 2) (v ++ crlf) := by
    have := (window_split (a := [40, 45]) (b := v ++ crlf)
      (by simpa using hw)).2
    simpa [Nat.add_assoc] using this
  obtain ⟨hfind, h13, h10, hslice⟩ := lineParts hok hw2
  simp only [parseBigNumber, hstart, bind_ok, h45]
  norm_num
  simp only [hfind, h13, h10, hslice, bind_ok, Option.getD_some]

theorem parseBigNumberPos_spec {input : List Nat} {p : Nat} {v : List Nat}
    (hok : lineOk v = true)
    (hhead : ∀ b, (v ++ crlf)[0]? = some b → b ≠ 43 ∧ b ≠ 45)
    (hw : window input p (40 :: (v ++ crlf))) :
    parseBigNumber input p = .ok (.bigNumber 43 v, p + 1 + v.length + 2) := by
  have hstart : readAndAssertSymbol input 40 p = .ok (p + 1) := by
    have := assertOf hw (show 0 < (40 :: (v ++ crlf)).length by simp)
      (show (40 :: (v ++ crlf))[0]? = some 40 by simp)
    simpa using this
  have hw2 : window input (p + 1) (v ++ crlf) := by
    have := (window_split (a := [40]) (b := v ++ crlf) (by simpa using hw)).2
    simpa using this
  have hlen0 : 0 < (v ++ crlf).length := by simp [crlf]
  have hb : input[p + 1]? = some ((v ++ crlf).getD 0 0) := by
    have := window_get hw2 hlen0
    simpa using this
  have hvb : (v ++ crlf)[0]? = some ((v ++ crlf).getD 0 0) := by
    rw [List.getD_eq_getElem?_getD, List.getElem?_eq_getElem hlen0]
    rfl
  have hbne := hhead _ hvb
  have hnc : ¬((v ++ crlf).getD 0 0 = 43 ∨ (v ++ crlf).getD 0 0 = 45) :=
    fun hc => hc.elim hbne.1 hbne.2
  have h1 : (if (v ++ crlf).getD 0 0 = 43 ∨ (v ++ crlf).getD 0 0 = 45 then
      p + 2 else p + 1) = p + 1 := if_neg hnc
  have h2 : (if (v ++ crlf).getD 0 0 = 43 ∨ (v ++ crlf).getD 0 0 = 45 then
      some ((v ++ crlf).getD 0 0) else none) = none := if_neg hnc
  obtain ⟨hfind, h13, h10, hslice⟩ := lineParts hok hw2
  simp only [parseBigNumber, hstart, bind_ok, hb, h1, h2, hfind, h13, h10,
    hslice, Option.getD_none]

theorem parseAggregateHeader_spec {input : List Nat} {p : Nat} {k : Nat}
    {pfx : Nat} (hk : k < 2 ^ 63)
    (hw : window input p (pfx :: (natToDigits k ++ crlf))) :
    parseAggregateHeader input p pfx =
      .ok (Int.ofNat k, p + 1 + (natToDigits k).length + 2) := by
  have hstart : readAndAssertSymbol input pfx p = .ok (p + 1) := by
    have := assertOf hw (show 0 < (pfx :: (natToDigits k ++ crlf)).length by simp)
      (show (pfx :: (natToDigits k ++ crlf))[0]? = some pfx by simp)
    simpa using this
  have hw2 : window input (p + 1) (natToDigits k ++ crlf) := by
    have := (window_split (a := [pfx]) (b := natToDigits k ++ crlf)
      (by simpa using hw)).2
    simpa using this
  obtain ⟨hfind, h13, h10, hslice⟩ := lineParts (lineOk_natToDigits k) hw2
  simp only [parseAggregateHeader, hstart, bind_ok, hfind, h13, h10, hslice,
    parseI64_natToDigits hk]

theorem parseItems_spec {q : List Nat → Nat → Except RErr (DataType × Nat)}
    {input : List Nat} :
    ∀ (l : List DataType) (p : Nat),
    (∀ e ∈ l, ∀ r : Nat, window input r e.serialize →
      q input r = .ok (e, r + e.serialize.length)) →
    window input p (DataType.serializeList l) →
    parseItems q l.length input p =
      .ok (l, p + (DataType.serializeList l).length) := by
  intro l
  induction l with
  | nil =>
    intro p _ _
    simp [parseItems, DataType.serializeList]
  | cons e rest ih =>
    intro p hq hw
    rw [DataType.serializeList] at hw
    have h1 := (window_split hw).1
    have h2 := (window_split hw).2
    have hqe := hq e (by simp) p h1
    have hrest := ih (p + e.serialize.length)
      (fun e' he' r hwr => hq e' (by simp [he']) r hwr) h2
    simp only [List.length_cons, parseItems, hqe, bind_ok, hrest]
    simp only [DataType.serializeList, List.length_append, bind_ok]
    rw [show p + e.serialize.length + (DataType.serializeList rest).length =
      p + (e.serialize.length + (DataType.serializeList rest).length) by omega]

theorem parsePairs_spec {q : List Nat → Nat → Except RErr (DataType × Nat)}
    {input : List Nat} :
    ∀ (l : List (DataType × DataType)) (p : Nat),
    (∀ d ∈ l,
      (∀ r : Nat, window input r d.1.serialize →
        q input r = .ok (d.1, r + d.1.serialize.length)) ∧
      (∀ r : Nat, window input r d.2.serialize →
        q input r = .ok (d.2, r + d.2.serialize.length))) →
    window input p (DataType.serializePairs l) →
    parsePairs q l.length input p =
      .ok (l, p + (DataType.serializePairs l).length) := by
  intro l
  induction l with
  | nil =>
    intro p _ _
    simp [parsePairs, DataType.serializePairs]
  | cons d rest ih =>
    intro p hq hw
    obtain ⟨dk, dv⟩ := d
    rw [DataType.serializePairs] at hw
    rw [show dk.serialize ++ dv.serialize ++ DataType.serializePairs rest =
      dk.serialize ++ (dv.serialize ++ DataType.serializePairs rest) by
        simp] at hw
    have h1 := (window_split hw).1
    have h2 := (window_split hw).2
    have h21 := (window_split h2).1
    have h22 := (window_split h2).2
    have hqk := (hq (dk, dv) (by simp)).1 p h1
    have hqv := (hq (dk, dv) (by simp)).2 (p + dk.serialize.length) h21
    have hrest := ih (p + dk.serialize.length + dv.serialize.length)
      (fun d' hd' => hq d' (by simp [hd'])) h22
    simp only [List.length_cons, parsePairs, hqk, bind_ok, hqv, hrest]
    simp only [DataType.serializePairs, List.length_append, bind_ok]
    rw [show p + dk.serialize.length + dv.serialize.length +
        (DataType.serializePairs rest).length =
      p + (dk.serialize.length + dv.serialize.length +
        (DataType.serializePairs rest).length) by omega]

theorem serializeList_mem_le {e : DataType} :
    ∀ {l : List DataType}, e ∈ l →
    e.serialize.length ≤ (DataType.serializeList l).length := by
  intro l
  induction l with
  | nil => intro h; cases h
  | cons a rest ih =>
    intro h
    rw [DataType.serializeList, List.length_append]
    rcases List.mem_cons.mp h with h | h
    · subst h; omega
    · have := ih h; omega

theorem serializePairs_mem_le {d : DataType × DataType} :
    ∀ {l : List (DataType × DataType)}, d ∈ l →
    d.1.serialize.length ≤ (DataType.serializePairs l).length ∧
    d.2.serialize.length ≤ (DataType.serializePairs l).length := by
  intro l
  induction l with
  | nil => intro h; cases h
  | cons a rest ih =>
    intro h
    obtain ⟨ak, av⟩ := a
    rw [DataType.serializePairs, List.length_append, List.length_append]
    rcases List.mem_cons.mp h with h | h
    · subst h; constructor <;> simp <;> omega
    · have := ih h; omega

theorem wfList_mem {e : DataType} :
    ∀ {l : List DataType}, DataType.wfList l = true → e ∈ l →
    e.wf = true := by
  intro l
  induction l with
  | nil => intro _ h; cases h
  | cons a rest ih =>
    intro hwf h
    rw [DataType.wfList, Bool.and_eq_true] at hwf
    rcases List.mem_cons.mp h with h | h
    · subst h; exact hwf.1
    · exact ih hwf.2 h

theorem wfPairs_mem {d : DataType × DataType} :
    ∀ {l : List (DataType × DataType)}, DataType.wfPairs l = true → d ∈ l →
    d.1.wf = true ∧ d.2.wf = true := by
  intro l
  induction l with
  | nil => intro _ h; cases h
  | cons a rest ih =>
    intro hwf h
    obtain ⟨ak, av⟩ := a
    rw [DataType.wfPairs, Bool.and_eq_true, Bool.and_eq_true] at hwf
    rcases List.mem_cons.mp h with h | h
    · subst h; exact ⟨hwf.1.1, hwf.1.2⟩
    · exact ih hwf.2 h

theorem ok_pair_pos {A : DataType} {q r : Nat} (h : q = r) :
    (Except.ok (A, q) : Except RErr (DataType × Nat)) = Except.ok (A, r) := by
  rw [h]

theorem toNat_ofNat_eq (n : Nat) : (Int.ofNat n).toNat = n := rfl

/-- The round trip at every position and every sufficient fuel: parsing a
buffer that carries `serialize m` at `p` returns `m` and the position just
past it. `fuel` only has to exceed the serialized length, since every
aggregate level consumes at least four bytes before recursing. -/
theorem parseD_serialize :
    ∀ (fuel : Nat) (m : DataType) (input : List Nat) (p : Nat),
    m.serialize.length < fuel → m.wf = true → window input p m.serialize →
    parseD fuel input p = .ok (m, p + m.serialize.length) := by
  intro fuel
  induction fuel with
  | zero =>
    intro m input p hlt _ _
    exact absurd hlt (by omega)
  | succ f ih =>
    intro m input p hlt hwf hw
    cases m with
    | double v =>
      rw [DataType.wf, Bool.and_eq_true] at hwf
      simp only [DataType.serialize] at hw ⊢
      have h0 : input[p]? = some 44 := by
        have h := hw 0 (by simp)
        simpa using h
      rw [parseD, h0]
      norm_num
      rw [parseDouble_spec hwf.1 hwf.2 hw]
      apply ok_pair_pos
      first | omega | (simp [str, crlf]; try omega)
    | bigNumber sign v =>
      simp only [DataType.wf, Bool.and_eq_true, Bool.or_eq_true,
        decide_eq_true_eq] at hwf
      simp only [DataType.serialize] at hw ⊢
      by_cases hs : sign = 45
      · subst hs
        rw [if_pos rfl] at hw ⊢
        have hw45 : window input p (40 :: 45 :: (v ++ crlf)) := by
          have : (45 : Nat) :: v ++ crlf = 45 :: (v ++ crlf) := by simp
          simpa [this] using hw
        have h0 : input[p]? = some 40 := by
          have h := hw45 0 (by simp)
          simpa using h
        rw [parseD, h0]
        norm_num
        rw [parseBigNumberNeg_spec hwf.1 hw45]
        apply ok_pair_pos
        first | omega | (simp [str, crlf]; try omega)
      · obtain ⟨hsv, hvh⟩ := hwf.2.resolve_left hs
        subst hsv
        rw [if_neg (by omega)] at hw ⊢
        have hw43 : window input p (40 :: (v ++ crlf)) := by
          simpa using hw
        have h0 : input[p]? = some 40 := by
          have h := hw43 0 (by simp)
          simpa using h
        have hhead : ∀ b, (v ++ crlf)[0]? = some b → b ≠ 43 ∧ b ≠ 45 := by
          intro b hb
          cases v with
          | nil =>
            simp [crlf] at hb
            omega
          | cons c rest =>
            simp at hb
            simp only [Bool.and_eq_true, decide_eq_true_eq] at hvh
            subst hb
            exact hvh
        rw [parseD, h0]
        norm_num
        rw [parseBigNumberPos_spec hwf.1 hhead hw43]
        apply ok_pair_pos
        first | omega | (simp [str, crlf]; try omega)
    | integer v =>
      simp only [DataType.wf, Bool.and_eq_true, decide_eq_true_eq] at hwf
      simp only [DataType.serialize] at hw ⊢
      have h0 : input[p]? = some 58 := by
        have h := hw 0 (by simp)
        simpa using h
      rw [parseD, h0]
      norm_num
      rw [parseInteger_spec hwf.1 hwf.2 hw]
      apply ok_pair_pos
      first | omega | (simp [str, crlf]; try omega)
    | simpleError v =>
      rw [DataType.wf] at hwf
      simp only [DataType.serialize] at hw ⊢
      have h0 : input[p]? = some 45 := by
        have h := hw 0 (by simp)
        simpa using h
      rw [parseD, h0]
      norm_num
      rw [parseSimpleError_spec hwf hw]
      apply ok_pair_pos
      first | omega | (simp [str, crlf]; try omega)
    | simpleString v =>
      rw [DataType.wf] at hwf
      simp only [DataType.serialize] at hw ⊢
      have h0 : input[p]? = some 43 := by
        have h := hw 0 (by simp)
        simpa using h
      rw [parseD, h0]
      norm_num
      rw [parseSimpleString_spec hwf hw]
      apply ok_pair_pos
      first | omega | (simp [str, crlf]; try omega)
    | bulkString value =>
      cases value with
      | some v =>
        simp only [DataType.wf, decide_eq_true_eq] at hwf
        simp only [DataType.serialize] at hw ⊢
        have h0 : input[p]? = some 36 := by
          have h := hw 0 (by simp)
          simpa using h
        have hresh : (36 : Nat) :: (natToDigits v.length ++ crlf ++ v ++ crlf) =
            (36 :: (natToDigits v.length ++ crlf ++ v)) ++ crlf := by simp
        have hwr : window input p
            ((36 :: (natToDigits v.length ++ crlf ++ v)) ++ crlf) := by
          rw [← hresh]
          exact hw
        have hwhead : window input p (36 :: (natToDigits v.length ++ crlf ++ v)) :=
          (window_split hwr).1
        have hwcr : window input
            (p + (36 :: (natToDigits v.length ++ crlf ++ v)).length) crlf :=
          (window_split hwr).2
        have hlenh : (36 : Nat) :: (natToDigits v.length ++ crlf ++ v) ≠ [] ∧
            ((36 : Nat) :: (natToDigits v.length ++ crlf ++ v)).length =
              1 + (natToDigits v.length).length + 2 + v.length := by
          refine ⟨by simp, ?_⟩
          simp [crlf]
          omega
        have h13 : input[p + 1 + (natToDigits v.length).length + 2 +
            v.length]? = some 13 := by
          have h := hwcr 0 (by simp [crlf])
          rw [hlenh.2] at h
          rw [show p + (1 + (natToDigits v.length).length + 2 + v.length) + 0 =
            p + 1 + (natToDigits v.length).length + 2 + v.length by omega] at h
          simpa [crlf] using h
        have h10 : input[p + 1 + (natToDigits v.length).length + 2 +
            v.length + 1]? = some 10 := by
          have h := hwcr 1 (by simp [crlf])
          rw [hlenh.2] at h
          rw [show p + (1 + (natToDigits v.length).length + 2 + v.length) + 1 =
            p + 1 + (natToDigits v.length).length + 2 + v.length + 1 by omega] at h
          simpa [crlf] using h
        have hspec := parseBulkStringOrRdb_spec (allDigits_natToDigits v.length)
          (natToDigits_ne_nil v.length) (digitsVal_natToDigits v.length) hwf
          rfl hwhead
        rw [parseD, h0]
        norm_num
        rw [hspec, if_pos ⟨h13, h10⟩]
        apply ok_pair_pos
        first | omega | (simp [str, crlf]; try omega)
      | none =>
        simp only [DataType.serialize] at hw ⊢
        have h0 : input[p]? = some 36 := by
          have h := hw 0 (by simp)
          simpa using h
        have h45 : input[p + 1]? = some 45 := by
          have h := hw 1 (by simp [str, crlf])
          simpa [str] using h
        rw [parseD, h0]
        norm_num
        rw [parseBulkNull_spec h0 h45]
        apply ok_pair_pos
        first | omega | (simp [str, crlf]; try omega)
    | rdb v =>
      rw [DataType.wf] at hwf
      simp at hwf
    | bulkError v =>
      simp only [DataType.wf, decide_eq_true_eq] at hwf
      simp only [DataType.serialize] at hw ⊢
      have h0 : input[p]? = some 33 := by
        have h := hw 0 (by simp)
        simpa using h
      rw [parseD, h0]
      norm_num
      rw [parseBulkError_spec hwf hw]
      apply ok_pair_pos
      first | omega | (simp [str, crlf]; try omega)
    | verbatimString e v =>
      simp only [DataType.wf, Bool.and_eq_true, decide_eq_true_eq] at hwf
      simp only [DataType.serialize] at hw ⊢
      have hno : ∀ b ∈ e, b ≠ 58 := by
        intro b hb
        have h := List.all_eq_true.mp hwf.2 b hb
        simpa using h
      have h0 : input[p]? = some 61 := by
        have h := hw 0 (by simp)
        simpa using h
      rw [parseD, h0]
      norm_num
      rw [parseVerbatimString_spec hno hwf.1 hw]
      apply ok_pair_pos
      first | omega | (simp [str, crlf]; try omega)
    | null =>
      simp only [DataType.serialize] at hw ⊢
      have h0 : input[p]? = some 95 := by
        have h := hw 0 (by simp [str, crlf])
        simpa [str] using h
      rw [parseD, h0]
      norm_num
      rw [parseNull_spec hw]
      apply ok_pair_pos
      first | omega | (simp [str, crlf]; try omega)
    | boolean value =>
      simp only [DataType.serialize] at hw ⊢
      have h0 : input[p]? = some 35 := by
        have h := hw 0 (by simp)
        simpa using h
      rw [parseD, h0]
      norm_num
      rw [parseBoolean_spec hw]
      apply ok_pair_pos
      first | omega | (simp [str, crlf]; try omega)
    | map entries =>
      simp only [DataType.wf, Bool.and_eq_true, decide_eq_true_eq] at hwf
      simp only [DataType.serialize] at hw hlt ⊢
      have h0 : input[p]? = some 37 := by
        have h := hw 0 (by simp)
        simpa using h
      have hresh : (37 : Nat) :: (natToDigits entries.length ++ crlf ++
          DataType.serializePairs entries) =
          (37 :: (natToDigits entries.length ++ crlf)) ++
            DataType.serializePairs entries := by simp
      rw [hresh] at hw
      have hwh : window input p (37 :: (natToDigits entries.length ++ crlf)) :=
        (window_split hw).1
      have hwl : window input (p + 1 + (natToDigits entries.length).length + 2)
          (DataType.serializePairs entries) := by
        have h := (window_split hw).2
        have he : p + (37 :: (natToDigits entries.length ++ crlf)).length =
            p + 1 + (natToDigits entries.length).length + 2 := by
          simp [crlf]; omega
        rwa [he] at h
      have hhd := parseAggregateHeader_spec hwf.1 hwh
      simp only [List.length_cons, List.length_append, crlf,
        List.length_nil] at hlt
      have hq : ∀ d ∈ entries,
          (∀ r : Nat, window input r d.1.serialize →
            parseD f input r = .ok (d.1, r + d.1.serialize.length)) ∧
          (∀ r : Nat, window input r d.2.serialize →
            parseD f input r = .ok (d.2, r + d.2.serialize.length)) := by
        intro d hd
        have hmem := serializePairs_mem_le hd
        have hdwf := wfPairs_mem hwf.2 hd
        constructor
        · intro r hwr
          exact ih d.1 input r (by omega) hdwf.1 hwr
        · intro r hwr
          exact ih d.2 input r (by omega) hdwf.2 hwr
      have hit := parsePairs_spec entries
        (p + 1 + (natToDigits entries.length).length + 2) hq hwl
      rw [parseD, h0]
      norm_num
      simp only [hhd, bind_ok, toNat_ofNat_eq, hit]
      apply ok_pair_pos
      first | omega | (simp [str, crlf]; try omega)
    | set elements =>
      simp only [DataType.wf, Bool.and_eq_true, decide_eq_true_eq] at hwf
      simp only [DataType.serialize] at hw hlt ⊢
      have h0 : input[p]? = some 126 := by
        have h := hw 0 (by simp)
        simpa using h
      have hresh : (126 : Nat) :: (natToDigits elements.length ++ crlf ++
          DataType.serializeList elements) =
          (126 :: (natToDigits elements.length ++ crlf)) ++
            DataType.serializeList elements := by simp
      rw [hresh] at hw
      have hwh : window input p (126 :: (natToDigits elements.length ++ crlf)) :=
        (window_split hw).1
      have hwl : window input (p + 1 + (natToDigits elements.length).length + 2)
          (DataType.serializeList elements) := by
        have h := (window_split hw).2
        have he : p + (126 :: (natToDigits elements.length ++ crlf)).length =
            p + 1 + (natToDigits elements.length).length + 2 := by
          simp [crlf]; omega
        rwa [he] at h
      have hhd := parseAggregateHeader_spec hwf.1 hwh
      simp only [List.length_cons, List.length_append, crlf,
        List.length_nil] at hlt
      have hq : ∀ e ∈ elements, ∀ r : Nat, window input r e.serialize →
          parseD f input r = .ok (e, r + e.serialize.length) := by
        intro e he r hwr
        have hmem := serializeList_mem_le he
        exact ih e input r (by omega) (wfList_mem hwf.2 he) hwr
      have hit := parseItems_spec elements
        (p + 1 + (natToDigits elements.length).length + 2) hq hwl
      rw [parseD, h0]
      norm_num
      simp only [hhd, bind_ok, toNat_ofNat_eq, hit]
      apply ok_pair_pos
      first | omega | (simp [str, crlf]; try omega)
    | array elements =>
      simp only [DataType.wf, Bool.and_eq_true, decide_eq_true_eq] at hwf
      simp only [DataType.serialize] at hw hlt ⊢
      have h0 : input[p]? = some 42 := by
        have h := hw 0 (by simp)
        simpa using h
      have hresh : (42 : Nat) :: (natToDigits elements.length ++ crlf ++
          DataType.serializeList elements) =
          (42 :: (natToDigits elements.length ++ crlf)) ++
            DataType.serializeList elements := by simp
      rw [hresh] at hw
      have hwh : window input p (42 :: (natToDigits elements.length ++ crlf)) :=
        (window_split hw).1
      have hwl : window input (p + 1 + (natToDigits elements.length).length + 2)
          (DataType.serializeList elements) := by
        have h := (window_split hw).2
        have he : p + (42 :: (natToDigits elements.length ++ crlf)).length =
            p + 1 + (natToDigits elements.length).length + 2 := by
          simp [crlf]; omega
        rwa [he] at h
      have hhd := parseAggregateHeader_spec hwf.1 hwh
      simp only [List.length_cons, List.length_append, crlf,
        List.length_nil] at hlt
      have hq : ∀ e ∈ elements, ∀ r : Nat, window input r e.serialize →
          parseD f input r = .ok (e, r + e.serialize.length) := by
        intro e he r hwr
        have hmem := serializeList_mem_le he
        exact ih e input r (by omega) (wfList_mem hwf.2 he) hwr
      have hit := parseItems_spec elements
        (p + 1 + (natToDigits elements.length).length + 2) hq hwl
      rw [parseD, h0]
      norm_num
      simp only [hhd, bind_ok, toNat_ofNat_eq, hit]
      apply ok_pair_pos
      first | omega | (simp [str, crlf]; try omega)
    | push elements =>
      simp only [DataType.wf, Bool.and_eq_true, decide_eq_true_eq] at hwf
      simp only [DataType.serialize] at hw hlt ⊢
      have h0 : input[p]? = some 62 := by
        have h := hw 0 (by simp)
        simpa using h
      have hresh : (62 : Nat) :: (natToDigits elements.length ++ crlf ++
          DataType.serializeList elements) =
          (62 :: (natToDigits elements.length ++ crlf)) ++
            DataType.serializeList elements := by simp
      rw [hresh] at hw
      have hwh : window input p (62 :: (natToDigits elements.length ++ crlf)) :=
        (window_split hw).1
      have hwl : window input (p + 1 + (natToDigits elements.length).length + 2)
          (DataType.serializeList elements) := by
        have h := (window_split hw).2
        have he : p + (62 :: (natToDigits elements.length ++ crlf)).length =
            p + 1 + (natToDigits elements.length).length + 2 := by
          simp [crlf]; omega
        rwa [he] at h
      have hhd := parseAggregateHeader_spec hwf.1 hwh
      simp only [List.length_cons, List.length_append, crlf,
        List.length_nil] at hlt
      have hq : ∀ e ∈ elements, ∀ r : Nat, window input r e.serialize →
          parseD f input r = .ok (e, r + e.serialize.length) := by
        intro e he r hwr
        have hmem := serializeList_mem_le he
        exact ih e input r (by omega) (wfList_mem hwf.2 he) hwr
      have hit := parseItems_spec elements
        (p + 1 + (natToDigits elements.length).length + 2) hq hwl
      rw [parseD, h0]
      norm_num
      simp only [hhd, bind_ok, toNat_ofNat_eq, hit]
      apply ok_pair_pos
      first | omega | (simp [str, crlf]; try omega)

/-! ### Claim theorems: serialize/parse round trip (C1) -/

/-- C1 counterexample: the round trip fails without further conditions on
the message — the SimpleString whose content is the two bytes CR LF
serializes to `"+\r\n\r\n"`, which parses back as the empty SimpleString
(not the original message) consuming only 3 of the 5 serialized bytes. -/
theorem parse_serialize_counterexample :
    DataType.parse (DataType.serialize (.simpleString [13, 10])) 0 =
      .ok (.simpleString [], 3) ∧
    (DataType.serialize (.simpleString [13, 10])).length = 5 ∧
    ([] : List Nat) ≠ [13, 10] :=
  ⟨rfl, rfl, by decide⟩

/-- C1 (amended): for every well-formed message `m` — line-oriented fields
clean of scanner-visible CRLF sequences, a valid double literal, an
explicit BigNumber sign with an unambiguous value, numeric fields within
the parsers' integer ranges, a colon-free verbatim encoding, and no Rdb
variant (`DataType.wf`) — parsing the serialized bytes at position 0
succeeds and returns exactly `m` together with a new position equal to the
serialized length. -/
theorem parse_serialize_roundtrip (m : DataType) (hwf : m.wf = true) :
    DataType.parse m.serialize 0 = .ok (m, m.serialize.length) := by
  have h := parseD_serialize (m.serialize.length + 1) m m.serialize 0
    (by omega) hwf (window_full _)
  rw [DataType.parse]
  simpa using h

/-- A sample message exercising every supported variant (aggregates,
both bulk strings, both booleans, both BigNumber signs, verbatim, double,
integer, errors, null). -/
def c1Sample : DataType :=
  .map [(.simpleString (str "k"),
    .array [.integer (-42), .bulkString (some (str "ab")), .bulkString none,
      .double (str "3.14"), .bigNumber 45 (str "99"), .bigNumber 43 (str "7"),
      .boolean true, .boolean false, .null,
      .verbatimString (str "txt") (str "hi"),
      .bulkError (str "ERR"), .simpleError (str "bad"),
      .set [.integer 1], .push [.simpleString (str "p")]])]

/-- Witness for C1 (amended): the sample message is well formed and its
103 serialized bytes parse back to it exactly. -/
theorem parse_serialize_roundtrip_witness :
    DataType.wf c1Sample = true ∧
    DataType.parse (DataType.serialize c1Sample) 0 =
      .ok (c1Sample, (DataType.serialize c1Sample).length) :=
  ⟨by decide, parse_serialize_roundtrip c1Sample (by decide)⟩

/-! ### CRC64 range and little-endian round trip (for C2) -/

theorem crc64BitStep_lt {byte : Nat} :
    ∀ (i crc : Nat), crc < 2 ^ 64 → crc64BitStep byte crc i < 2 ^ 64 := by
  intro i
  induction i with
  | zero => intro crc h; exact h
  | succ j ih =>
    intro crc _
    rw [crc64BitStep]
    apply ih
    by_cases hx : (crc / 2 ^ 63 % 2) ^^^ (byte / 2 ^ (8 - (j + 1)) % 2) ≠ 0
    · rw [if_pos hx]
      exact Nat.xor_lt_two_pow (Nat.mod_lt _ (by norm_num)) (by norm_num [CRC64_POLY])
    · rw [if_neg hx]
      exact Nat.mod_lt _ (by norm_num)

theorem reflect64Step_lt :
    ∀ (i : Nat), i ≤ 64 → ∀ (d r : Nat), r < 2 ^ (64 - i) →
    (reflect64Step i (d, r)).2 < 2 ^ 64 := by
  intro i
  induction i with
  | zero =>
    intro _ d r hr
    simpa [reflect64Step] using hr
  | succ j ih =>
    intro hle d r hr
    rw [reflect64Step]
    apply ih (by omega)
    have h1 : (2 : Nat) ^ (64 - (j + 1)) * 2 = 2 ^ (64 - j) := by
      rw [show 64 - j = (64 - (j + 1)) + 1 by omega, pow_succ]
    have h2 : d / 2 % 2 < 2 := Nat.mod_lt _ (by norm_num)
    omega

theorem reflect64_lt (d : Nat) : reflect64 d < 2 ^ 64 := by
  rw [reflect64]
  exact reflect64Step_lt 63 (by omega) d (d % 2)
    (by have := Nat.mod_lt d (show 0 < 2 by norm_num); norm_num; omega)

theorem crc64SingleByte_lt (b : Nat) : crc64SingleByte b < 2 ^ 64 :=
  reflect64_lt _

theorem crc64Table_getD_lt (i : Nat) : crc64Table.getD i 0 < 2 ^ 64 := by
  rw [List.getD_eq_getElem?_getD, crc64Table, List.getElem?_map]
  cases h : (List.range 256)[i]? with
  | none => norm_num
  | some j =>
    simp only [Option.map_some', Option.getD_some]
    exact crc64SingleByte_lt j

theorem crc64_foldl_lt :
    ∀ (l : List Nat) (crc : Nat), crc < 2 ^ 64 →
    l.foldl (fun crc byte =>
      (crc64Table.getD ((crc ^^^ byte) % 256) 0) ^^^ (crc / 2 ^ 8)) crc <
      2 ^ 64 := by
  intro l
  induction l with
  | nil => intro crc h; exact h
  | cons b rest ih =>
    intro crc hc
    rw [List.foldl_cons]
    apply ih
    exact Nat.xor_lt_two_pow (crc64Table_getD_lt _)
      (lt_of_le_of_lt (Nat.div_le_self _ _) hc)

theorem crc64_lt (l : List Nat) : crc64 l < 2 ^ 64 := by
  rw [crc64]
  exact crc64_foldl_lt l 0 (by norm_num)

theorem toLe8_length (n : Nat) : (toLe8 n).length = 8 := rfl

theorem fromLeBytes_toLe8 (n : Nat) : fromLeBytes (toLe8 n) = n % 2 ^ 64 := by
  simp only [fromLeBytes, toLe8, List.foldr_cons, List.foldr_nil]
  norm_num
  omega

/-! ### Length-encoding and string round trips (for C2) -/

theorem readExact_append {d r : List Nat} :
    readExact d.length (d ++ r) = .ok (d, r) := by
  rw [readExact, if_pos (by simp)]
  rw [List.take_left, List.drop_left]

theorem decodeLengthOrSpecial_encodeLength (n : Nat) (r : List Nat) :
    decodeLengthOrSpecial (encodeLength n ++ r) =
      .ok (.length (n % 2 ^ 32), r) := by
  rw [encodeLength]
  by_cases h6 : n < 2 ^ 6
  · rw [if_pos h6]
    rw [decodeLengthOrSpecial]
    rw [show ([n] ++ r : List Nat) = n :: r by simp]
    rw [show readExact 1 (n :: r) = .ok ([n], r) from readExact_append (d := [n])]
    simp only [bind_ok, List.headD_cons]
    rw [if_pos (by omega)]
    rw [show n % 64 = n % 2 ^ 32 by omega]
  · rw [if_neg h6]
    by_cases h14 : n < 2 ^ 14
    · rw [if_pos h14]
      rw [decodeLengthOrSpecial]
      rw [show ([64 + n / 256, n % 256] ++ r : List Nat) =
        (64 + n / 256) :: (n % 256 :: r) by simp]
      rw [show readExact 1 ((64 + n / 256) :: (n % 256 :: r)) =
        .ok ([64 + n / 256], n % 256 :: r) from
        readExact_append (d := [64 + n / 256])]
      simp only [bind_ok, List.headD_cons]
      rw [if_neg (by omega), if_pos (by omega)]
      rw [show readExact 1 (n % 256 :: r) = .ok ([n % 256], r) from
        readExact_append (d := [n % 256])]
      simp only [bind_ok, List.headD_cons]
      rw [show (64 + n / 256) % 64 * 256 + n % 256 = n % 2 ^ 32 by omega]
    · rw [if_neg h14]
      rw [decodeLengthOrSpecial]
      rw [show ((128 :: [n % 2 ^ 32 / 2 ^ 24, n % 2 ^ 32 / 2 ^ 16 % 256,
          n % 2 ^ 32 / 2 ^ 8 % 256, n % 2 ^ 32 % 256]) ++ r : List Nat) =
        128 :: ([n % 2 ^ 32 / 2 ^ 24, n % 2 ^ 32 / 2 ^ 16 % 256,
          n % 2 ^ 32 / 2 ^ 8 % 256, n % 2 ^ 32 % 256] ++ r) by simp]
      rw [show readExact 1 (128 :: ([n % 2 ^ 32 / 2 ^ 24,
          n % 2 ^ 32 / 2 ^ 16 % 256, n % 2 ^ 32 / 2 ^ 8 % 256,
          n % 2 ^ 32 % 256] ++ r)) =
        .ok ([128], [n % 2 ^ 32 / 2 ^ 24, n % 2 ^ 32 / 2 ^ 16 % 256,
          n % 2 ^ 32 / 2 ^ 8 % 256, n % 2 ^ 32 % 256] ++ r) from
        readExact_append (d := [128])]
      simp only [bind_ok, List.headD_cons]
      rw [if_neg (by norm_num), if_neg (by norm_num), if_pos (by norm_num)]
      rw [show readExact 4 ([n % 2 ^ 32 / 2 ^ 24, n % 2 ^ 32 / 2 ^ 16 % 256,
          n % 2 ^ 32 / 2 ^ 8 % 256, n % 2 ^ 32 % 256] ++ r) =
        .ok ([n % 2 ^ 32 / 2 ^ 24, n % 2 ^ 32 / 2 ^ 16 % 256,
          n % 2 ^ 32 / 2 ^ 8 % 256, n % 2 ^ 32 % 256], r) from
        readExact_append (d := [n % 2 ^ 32 / 2 ^ 24, n % 2 ^ 32 / 2 ^ 16 % 256,
          n % 2 ^ 32 / 2 ^ 8 % 256, n % 2 ^ 32 % 256])]
      simp only [bind_ok]
      rw [show ([n % 2 ^ 32 / 2 ^ 24, n % 2 ^ 32 / 2 ^ 16 % 256,
          n % 2 ^ 32 / 2 ^ 8 % 256, n % 2 ^ 32 % 256] : List Nat).reverse =
        [n % 2 ^ 32 % 256, n % 2 ^ 32 / 2 ^ 8 % 256,
          n % 2 ^ 32 / 2 ^ 16 % 256, n % 2 ^ 32 / 2 ^ 24] by simp]
      rw [show fromLeBytes [n % 2 ^ 32 % 256, n % 2 ^ 32 / 2 ^ 8 % 256,
          n % 2 ^ 32 / 2 ^ 16 % 256, n % 2 ^ 32 / 2 ^ 24] = n % 2 ^ 32 by
        simp only [fromLeBytes, List.foldr_cons, List.foldr_nil]
        norm_num
        omega]

theorem decodeLength_encodeLength (n : Nat) (r : List Nat) :
    decodeLength (encodeLength n ++ r) = .ok (n % 2 ^ 32, r) := by
  rw [decodeLength]
  rw [decodeLengthOrSpecial_encodeLength]
  rfl

theorem readString_writeString {d : List Nat} (hd : d.length < 2 ^ 32)
    (r : List Nat) : readString (writeString d ++ r) = .ok (d, r) := by
  rw [writeString, List.append_assoc, readString,
    decodeLengthOrSpecial_encodeLength]
  rw [show d.length % 2 ^ 32 = d.length from Nat.mod_eq_of_lt hd]
  exact readExact_append

/-! ### The `from_rdb` opcode loop on `to_rdb` output (for C2) -/

theorem fromRdbLoop_aux (now f : Nat) (k v r : List Nat)
    (data : List (List Nat × StoredValue))
    (hk : k.length < 2 ^ 32) (hv : v.length < 2 ^ 32) :
    fromRdbLoop now (f + 1) (writeAuxField k v ++ r) data =
      fromRdbLoop now f r data := by
  rw [writeAuxField, List.cons_append, fromRdbLoop]
  norm_num
  rw [readString_writeString hk]
  simp only [bind_ok]
  rw [readString_writeString hv]
  simp only [bind_ok]

theorem fromRdbLoop_selectdb (now f n : Nat) (r : List Nat)
    (data : List (List Nat × StoredValue)) :
    fromRdbLoop now (f + 1) (0xFE :: (encodeLength n ++ r)) data =
      fromRdbLoop now f r data := by
  rw [fromRdbLoop]
  norm_num
  rw [decodeLength_encodeLength]
  simp only [bind_ok]

theorem fromRdbLoop_resizedb (now f a b : Nat) (r : List Nat)
    (data : List (List Nat × StoredValue)) :
    fromRdbLoop now (f + 1)
      (0xFB :: (encodeLength a ++ (encodeLength b ++ r))) data =
      fromRdbLoop now f r data := by
  rw [fromRdbLoop]
  norm_num
  rw [decodeLength_encodeLength]
  simp only [bind_ok]
  rw [decodeLength_encodeLength]
  simp only [bind_ok]

theorem fromRdbLoop_eof (now f : Nat) (r : List Nat)
    (data : List (List Nat × StoredValue)) :
    fromRdbLoop now (f + 1) (0xFF :: r) data = .ok data := by
  rw [fromRdbLoop]
  norm_num

theorem expires_at_ms_lt {sv : StoredValue} {exp : Nat}
    (h : sv.expires_at_ms = some exp) : exp < 2 ^ 64 := by
  rw [StoredValue.expires_at_ms] at h
  cases hd : sv.expires_in_ms with
  | none => rw [hd] at h; simp at h
  | some dur =>
    rw [hd] at h
    simp only [Option.map_some', Option.some.injEq] at h
    have hm : (sv.last_modified_timestamp % 2 ^ 64 + dur) % 2 ^ 64 < 2 ^ 64 :=
      Nat.mod_lt _ (by norm_num)
    omega

theorem fromRdbLoop_entry (now f : Nat) (e : List Nat × StoredValue)
    (r : List Nat) (data : List (List Nat × StoredValue))
    (hu : utf8Valid e.1 = true) (hk : e.1.length < 2 ^ 32)
    (hv : e.2.value.length < 2 ^ 32) :
    fromRdbLoop now (f + 1) (entryBytes e ++ r) data =
      fromRdbLoop now f r (rdbEntryStep now data e) := by
  obtain ⟨k, sv⟩ := e
  simp only at hu hk hv
  cases hx : sv.expires_at_ms with
  | some exp =>
    have hexp : exp < 2 ^ 64 := expires_at_ms_lt hx
    rw [entryBytes]
    simp only [hx]
    rw [show ((0xFC :: toLe8 exp) ++
        (0 :: (writeString (k, sv).1 ++ writeString (k, sv).2.value))) ++ r =
      0xFC :: (toLe8 exp ++ (0 :: (writeString k ++
        (writeString sv.value ++ r)))) by simp]
    rw [fromRdbLoop]
    norm_num
    rw [show readExact 8 (toLe8 exp ++ (0 :: (writeString k ++
        (writeString sv.value ++ r)))) =
      .ok (toLe8 exp, 0 :: (writeString k ++ (writeString sv.value ++ r)))
      from by
        have h8 : (8 : Nat) = (toLe8 exp).length := (toLe8_length exp).symm
        rw [h8]
        exact readExact_append]
    simp only [bind_ok]
    rw [fromLeBytes_toLe8, Nat.mod_eq_of_lt hexp]
    rw [show readExact 1 (0 :: (writeString k ++ (writeString sv.value ++ r))) =
      .ok ([0], writeString k ++ (writeString sv.value ++ r)) from
      readExact_append (d := [0])]
    simp only [bind_ok, List.headD_cons]
    rw [readString_writeString hk]
    simp only [bind_ok]
    rw [if_pos hu]
    simp only [List.head?_cons, Option.getD_some, List.headD_cons]
    simp only [if_true]
    rw [readString_writeString hv]
    simp only [bind_ok]
    rw [rdbEntryStep]
    simp only [hx]
    by_cases hlt : now < exp
    · rw [if_pos (show StoredValue.is_expired now
          (StoredValue.with_absolute_expiry now sv.value (some exp)) =
            false by
        simp [StoredValue.with_absolute_expiry, StoredValue.is_expired]
        omega)]
      rw [if_pos hlt]
    · rw [if_neg (show ¬ StoredValue.is_expired now
          (StoredValue.with_absolute_expiry now sv.value (some exp)) =
            false by
        simp [StoredValue.with_absolute_expiry, StoredValue.is_expired]
        omega)]
      rw [if_neg hlt]
  | none =>
    rw [entryBytes]
    simp only [hx]
    rw [show (([] : List Nat) ++
        (0 :: (writeString (k, sv).1 ++ writeString (k, sv).2.value))) ++ r =
      0 :: (writeString k ++ (writeString sv.value ++ r)) by simp]
    rw [fromRdbLoop]
    norm_num
    rw [readString_writeString hk]
    simp only [bind_ok]
    rw [if_pos hu]
    rw [readString_writeString hv]
    simp only [bind_ok]
    rw [rdbEntryStep]
    simp only [hx]

theorem fromRdbLoop_entries (now : Nat) :
    ∀ (l : List (List Nat × StoredValue)) (f : Nat)
      (data : List (List Nat × StoredValue)),
    l.length < f →
    (∀ e ∈ l, utf8Valid e.1 = true ∧ e.1.length < 2 ^ 32 ∧
      e.2.value.length < 2 ^ 32) →
    fromRdbLoop now f ((l.map entryBytes).flatten ++ [0xFF]) data =
      .ok (l.foldl (rdbEntryStep now) data) := by
  intro l
  induction l with
  | nil =>
    intro f data hf _
    obtain ⟨g, rfl⟩ : ∃ g, f = g + 1 := ⟨f - 1, by omega⟩
    simp only [List.map_nil, List.flatten_nil, List.nil_append, List.foldl_nil]
    exact fromRdbLoop_eof now g [] data
  | cons e rest ih =>
    intro f data hf hent
    obtain ⟨g, rfl⟩ : ∃ g, f = g + 1 := ⟨f - 1, by omega⟩
    rw [List.map_cons, List.flatten_cons, List.append_assoc]
    rw [fromRdbLoop_entry now g e _ data (hent e (by simp)).1
      (hent e (by simp)).2.1 (hent e (by simp)).2.2]
    rw [List.foldl_cons]
    exact ih g _ (by simp at hf; omega) (fun e' he' => hent e' (by simp [he']))

/-! ### Lookup through the reload fold (for C2) -/

theorem mapLookup_insert_ne {k k' : List Nat} (h : k' ≠ k) (v : StoredValue) :
    ∀ (l : List (List Nat × StoredValue)),
    mapLookup k (mapInsert k' v l) = mapLookup k l := by
  intro l
  induction l with
  | nil => simp [mapInsert, mapLookup, h]
  | cons e rest ih =>
    obtain ⟨k1, v1⟩ := e
    by_cases hk : k1 = k'
    · subst hk
      rw [mapInsert, if_pos rfl, mapLookup, mapLookup, if_neg h, if_neg h]
    · rw [mapInsert, if_neg hk, mapLookup, mapLookup]
      by_cases h2 : k1 = k
      · rw [if_pos h2, if_pos h2]
      · rw [if_neg h2, if_neg h2]
        exact ih

theorem mapLookup_eq_none {k : List Nat} :
    ∀ {l : List (List Nat × StoredValue)}, k ∉ l.map Prod.fst →
    mapLookup k l = none := by
  intro l
  induction l with
  | nil => intro _; rfl
  | cons e rest ih =>
    intro h
    obtain ⟨k1, v1⟩ := e
    simp only [List.map_cons, List.mem_cons] at h
    push_neg at h
    rw [mapLookup, if_neg (fun hc => h.1 hc.symm)]
    exact ih h.2

theorem mapLookup_foldl_rdbEntryStep (now : Nat) (k : List Nat) :
    ∀ (l : List (List Nat × StoredValue))
      (data : List (List Nat × StoredValue)),
    (l.map Prod.fst).Nodup →
    mapLookup k (l.foldl (rdbEntryStep now) data) =
      match mapLookup k l with
      | some sv =>
        match sv.expires_at_ms with
        | some exp =>
          if now < exp then
            some (StoredValue.with_absolute_expiry now sv.value (some exp))
          else mapLookup k data
        | none => some (StoredValue.fromNow now sv.value none)
      | none => mapLookup k data := by
  intro l
  induction l with
  | nil =>
    intro data _
    rfl
  | cons e rest ih =>
    intro data hnd
    obtain ⟨k1, sv1⟩ := e
    simp only [List.map_cons, List.nodup_cons] at hnd
    rw [List.foldl_cons, ih _ hnd.2]
    by_cases hk : k1 = k
    · subst hk
      rw [mapLookup, if_pos rfl]
      rw [mapLookup_eq_none (by simpa using hnd.1)]
      rw [rdbEntryStep]
      cases hx : sv1.expires_at_ms with
      | some exp =>
        simp only [hx]
        by_cases hlt : now < exp
        · rw [if_pos hlt, if_pos hlt, mapLookup_insert]
        · rw [if_neg hlt, if_neg hlt]
      | none =>
        simp only [hx]
        rw [mapLookup_insert]
    · rw [mapLookup, if_neg hk]
      have hstep : mapLookup k (rdbEntryStep now data (k1, sv1)) =
          mapLookup k data := by
        rw [rdbEntryStep]
        cases hx : sv1.expires_at_ms with
        | some exp =>
          simp only [hx]
          by_cases hlt : now < exp
          · rw [if_pos hlt, mapLookup_insert_ne hk]
          · rw [if_neg hlt]
        | none =>
          simp only [hx]
          rw [mapLookup_insert_ne hk]
      cases hml : mapLookup k rest with
      | none => simp only [hml, hstep]
      | some sv =>
        simp only [hml]
        cases hx2 : sv.expires_at_ms with
        | some exp2 =>
          simp only [hx2]
          by_cases hlt2 : now < exp2
          · rw [if_pos hlt2, if_pos hlt2]
          · rw [if_neg hlt2, if_neg hlt2, hstep]
        | none => simp only [hx2]

/-! ### `from_rdb` on `to_rdb` output (for C2) -/

theorem flatten_entryBytes_ge (l : List (List Nat × StoredValue)) :
    l.length ≤ ((l.map entryBytes).flatten).length := by
  induction l with
  | nil => simp
  | cons e rest ih =>
    rw [List.map_cons, List.flatten_cons, List.length_append, List.length_cons]
    have h1 : 1 ≤ (entryBytes e).length := by
      rw [entryBytes, List.length_append, List.length_cons]
      omega
    omega

/-- Reading back a serialized store succeeds and reloads exactly the
entries whose deadline has not yet passed at load time `now`. The
hypothesis packages the invariants the source types guarantee: `HashMap`
keys are distinct valid UTF-8 strings, and key/value lengths fit the
32-bit length encoding `encode_length` writes. -/
theorem fromRdb_toRdb (now : Nat) (s : Storage)
    (hent : ∀ e ∈ s.data, utf8Valid e.1 = true ∧ e.1.length < 2 ^ 32 ∧
      e.2.value.length < 2 ^ 32) :
    fromRdb now (toRdb s) = .ok ⟨s.data.foldl (rdbEntryStep now) []⟩ := by
  obtain ⟨CUR, hCUR⟩ : ∃ C, C = writeAuxField (str "redis-ver") (str "7.0.0") ++
      (writeAuxField (str "redis-bits") (str "64") ++
      (0xFE :: (encodeLength 0 ++
      (0xFB :: (encodeLength s.data.length ++
        (encodeLength (s.data.filter
          (fun e => e.2.expires_at_ms.isSome)).length ++
      ((s.data.map entryBytes).flatten ++ [0xFF]))))))) := ⟨_, rfl⟩
  obtain ⟨B, hB⟩ : ∃ B, B = (str "REDIS" ++ str "0009") ++ CUR := ⟨_, rfl⟩
  have htr : toRdb s = B ++ toLe8 (crc64 B) := by
    rw [toRdb, hB, hCUR]
    simp [List.append_assoc]
  have hBlen : 9 ≤ B.length := by
    rw [hB, List.length_append]
    have h9 : (str "REDIS" ++ str "0009").length = 9 := rfl
    omega
  have hge : 4 + s.data.length ≤ CUR.length := by
    rw [hCUR]
    simp only [List.length_append, List.length_cons]
    have h1 := flatten_entryBytes_ge s.data
    have h2 : (writeAuxField (str "redis-ver") (str "7.0.0")).length = 17 := rfl
    have h3 : (writeAuxField (str "redis-bits") (str "64")).length = 15 := rfl
    omega
  have htake : (B ++ toLe8 (crc64 B)).take
      ((B ++ toLe8 (crc64 B)).length - 8) = B := by
    simp only [List.length_append, toLe8_length]
    rw [show B.length + 8 - 8 = B.length by omega]
    exact List.take_left B _
  have hdrop : (B ++ toLe8 (crc64 B)).drop
      ((B ++ toLe8 (crc64 B)).length - 8) = toLe8 (crc64 B) := by
    simp only [List.length_append, toLe8_length]
    rw [show B.length + 8 - 8 = B.length by omega]
    exact List.drop_left B _
  have hre : readExact 9 B = .ok (str "REDIS" ++ str "0009", CUR) := by
    rw [hB, show (9 : Nat) = (str "REDIS" ++ str "0009").length from rfl]
    exact readExact_append
  have hloop : fromRdbLoop now (CUR.length + 1) CUR [] =
      .ok (s.data.foldl (rdbEntryStep now) []) := by
    obtain ⟨g, hg, hgl⟩ : ∃ g, CUR.length = g + 4 ∧ s.data.length < g + 1 :=
      ⟨CUR.length - 4, by omega, by omega⟩
    rw [hg, hCUR]
    rw [fromRdbLoop_aux now (g + 4) (str "redis-ver") (str "7.0.0") _ []
      (by decide) (by decide)]
    rw [show g + 4 = g + 3 + 1 by omega]
    rw [fromRdbLoop_aux now (g + 3) (str "redis-bits") (str "64") _ []
      (by decide) (by decide)]
    rw [show g + 3 = g + 2 + 1 by omega]
    rw [fromRdbLoop_selectdb now (g + 2) 0 _ []]
    rw [show g + 2 = g + 1 + 1 by omega]
    rw [fromRdbLoop_resizedb now (g + 1) _ _ _ []]
    exact fromRdbLoop_entries now s.data (g + 1) [] hgl hent
  rw [htr]
  simp only [fromRdb]
  rw [if_neg (by simp only [List.length_append, toLe8_length]; omega)]
  simp only [htake, hdrop, fromLeBytes_toLe8,
    Nat.mod_eq_of_lt (crc64_lt B)]
  rw [if_neg (by simp)]
  simp only [hre, bind_ok]
  rw [if_pos (by decide), if_pos (by decide)]
  rw [show parseU32 ((str "REDIS" ++ str "0009").drop 5) = some 9 from rfl]
  simp only [hloop, bind_ok]

/-! ### Claim theorems: snapshot round trip (C2) -/

/-- C2: serializing a store with `to_rdb` and reading the bytes back with
`from_rdb` at (the possibly later) wall time `now_r` succeeds, and the
resulting store's `to_pairs` mapping agrees with the original store's
`to_pairs` on every key, except that an entry whose absolute expiry
deadline (`expires_at_ms`) has elapsed by read time is absent. The two
hypotheses state the invariants the source types already guarantee: the
`HashMap` keys are distinct, and keys are valid UTF-8 with key/value byte
lengths below `2^32` (the range `encode_length`'s 32-bit case can
represent). -/
theorem rdb_roundtrip (s : Storage) (now_r : Nat)
    (hnd : (s.data.map Prod.fst).Nodup)
    (hent : ∀ e ∈ s.data, utf8Valid e.1 = true ∧ e.1.length < 2 ^ 32 ∧
      e.2.value.length < 2 ^ 32) :
    ∃ s', fromRdb now_r (toRdb s) = .ok s' ∧
      ∀ k, s'.to_pairs k =
        match mapLookup k s.data with
        | some sv =>
          match sv.expires_at_ms with
          | some exp => if now_r < exp then some sv.value else none
          | none => some sv.value
        | none => none := by
  refine ⟨⟨s.data.foldl (rdbEntryStep now_r) []⟩,
    fromRdb_toRdb now_r s hent, ?_⟩
  intro k
  rw [Storage.to_pairs]
  simp only
  rw [mapLookup_foldl_rdbEntryStep now_r k s.data [] hnd]
  cases hml : mapLookup k s.data with
  | none => simp [mapLookup]
  | some sv =>
    simp only
    cases hx : sv.expires_at_ms with
    | some exp =>
      simp only
      by_cases hlt : now_r < exp
      · rw [if_pos hlt, if_pos hlt]
        simp [StoredValue.with_absolute_expiry]
      · rw [if_neg hlt, if_neg hlt]
        rfl
    | none => simp [StoredValue.fromNow]

/-- A sample store for the C2 witness: a key with no TTL, a key whose
deadline (150) is still in the future at read time 100, and a key whose
deadline (60) has passed by read time. -/
def c2Sample : Storage :=
  ⟨[([97], ⟨none, 50, [120]⟩), ([98], ⟨some 100, 50, [121]⟩),
    ([99], ⟨some 10, 50, [122]⟩)]⟩

/-- Witness for C2 at the sample store and read time 100: the hypotheses
hold and the round trip keeps `a` and `b` (the latter with its deadline
still 50ms away) while dropping the expired `c`. -/
theorem rdb_roundtrip_witness :
    ((c2Sample.data.map Prod.fst).Nodup ∧
      ∀ e ∈ c2Sample.data, utf8Valid e.1 = true ∧ e.1.length < 2 ^ 32 ∧
        e.2.value.length < 2 ^ 32) ∧
    ∃ s', fromRdb 100 (toRdb c2Sample) = .ok s' ∧
      ∀ k, s'.to_pairs k =
        match mapLookup k c2Sample.data with
        | some sv =>
          match sv.expires_at_ms with
          | some exp => if 100 < exp then some sv.value else none
          | none => some sv.value
        | none => none :=
  ⟨⟨by decide, by decide⟩, rdb_roundtrip c2Sample 100 (by decide) (by decide)⟩
